import Mathlib

/-!
Verification development for the WellQ scan ingestion and risk aggregation
engine.

The definitions below are a shallow embedding of the Python source:

* `core/scanners/trivy.py` (`TrivyScanner.parse`) — candidate extraction,
  fingerprinting and reconciliation for SCA findings;
* `core/scanners/trufflehog.py` (`TrufflehogScanner.parse`) — the secret
  scanner adapter, which shares the reconciliation tail with trivy;
* `core/models.py` (`Finding.save`) — the model-level fingerprint;
* `core/api/views.py` (`ReleaseViewSet.summary`) — the release risk engine;
* `core/services/artifact.py` (`get_or_create_scan_for_artifact`);
* `core/services/sbom.py` (`digest_sbom`).

Modelling conventions:

* JSON documents are the inductive `Json` below; numbers are modelled as
  `Int` (numeric payloads are only carried, never computed with, in the
  embedded code paths).
* Python `dict` objects are association lists whose keys are unique
  (as produced by `json.loads`); `jGetD` models `dict.get(k, default)`
  and fails, like Python's `AttributeError`, when the receiver is not a
  dict.
* Python exceptions are modelled with `Except String`; each adapter's
  outer `try/except` is the total wrapper that maps an error to the
  return value `0` with the store untouched.
* `hashlib.sha256(s).hexdigest()` is modelled by an injective function of
  `s` (`sha256Hex`).  Reconciliation only compares digests for equality,
  so any injective model is adequate; real SHA-256 is assumed
  collision-free.
* Python's `str()` of a JSON value (`pyStr`) is exact on strings,
  integers, booleans and `None`; the display form of containers is
  abstracted to a constant (it is deterministic, which is all the
  embedded code relies on).
* timestamps are natural numbers (minutes); `timezone.now()` becomes an
  explicit `now` argument.
-/

inductive Json where
  | null : Json
  | bool (b : Bool) : Json
  | num (n : Int) : Json
  | str (s : String) : Json
  | arr (elems : List Json) : Json
  | obj (fields : List (String × Json)) : Json
deriving Repr

/-- Python `str(x)` for a JSON value (f-string interpolation).  Container
display forms are abstracted to constants. -/
def pyStr : Json → String
  | .null => "None"
  | .bool true => "True"
  | .bool false => "False"
  | .num n => toString n
  | .str s => s
  | .arr _ => "<arr>"
  | .obj _ => "<obj>"

/-- Python truthiness of a JSON value. -/
def pyTruthy : Json → Bool
  | .null => false
  | .bool b => b
  | .num n => n != 0
  | .str s => s != ""
  | .arr l => !l.isEmpty
  | .obj f => !f.isEmpty

/-- ASCII uppercase of one character. -/
def upChar (c : Char) : Char :=
  if 97 ≤ c.toNat ∧ c.toNat ≤ 122 then Char.ofNat (c.toNat - 32) else c

/-- Python `s.upper()` (ASCII). -/
def pyUpper (s : String) : String := String.mk (s.data.map upChar)

/-- `d.get(key, default)`: returns the field named `key`, the default when
the key is absent, and raises (errors) when the receiver is not a dict. -/
def jGetD (j : Json) (key : String) (dflt : Json) : Except String Json :=
  match j with
  | .obj fields =>
      match fields.lookup key with
      | some v => .ok v
      | none => .ok dflt
  | _ => .error "AttributeError: not a dict"

/-- Iterating a value with `for x in v`: the embedded adapters only consume
lists; every other shape ends in the adapter's exception handler (in Python
a non-list iterable would instead fail at the first element access, with
the same observable outcome: the handler returns 0). -/
def jAsArr (j : Json) : Except String (List Json) :=
  match j with
  | .arr l => .ok l
  | _ => .error "TypeError: not iterable"

/-- A value used where Python requires `str` (e.g. `.upper()`, `.encode()`). -/
def jAsStr (j : Json) : Except String String :=
  match j with
  | .str s => .ok s
  | _ => .error "AttributeError: not a str"

/-- `hashlib.sha256(s.encode()).hexdigest()`, modelled as an injective
function of the input string (see the header). -/
def sha256Hex (s : String) : String := s

/-- Whether an `Except` computation succeeds. -/
def exceptOk {ε α : Type} : Except ε α → Bool
  | .ok _ => true
  | .error _ => false

section Findings

/-- `Finding.Status` (core/models.py). -/
inductive FStatus where
  | OPEN | FIXED | WONT_FIX | FALSE_POSITIVE
deriving DecidableEq, Repr

/-- `Finding.Type` (core/models.py). -/
inductive FType where
  | SCA | SECRET | SAST | IAC | CONTAINER
deriving DecidableEq, Repr

/-- The columns of a stored `Finding` row that the reconciliation and risk
engines read or write.  `severity` is the raw upper-cased string the
adapters store; `kev` is the `metadata.kev_status` flag; display-only
columns (title, description, metadata details, …) are omitted — no embedded
code path reads them. -/
structure FindingRow where
  hash_id : String
  status : FStatus
  severity : String
  ftype : FType
  kev : Bool
  last_seen : Nat
  scan : Nat
deriving DecidableEq, Repr

/-- The stored findings of one deduplication scope
(`Finding.objects.filter(scan__release=release)` in trivy). -/
structure ScopeState where
  rows : List FindingRow
deriving DecidableEq, Repr

/-- Result of an adapter `parse` call: the returned count, the
`findings_count` persisted on the scan record, and the store afterwards. -/
structure ParseResult where
  ret : Nat
  findings_count : Nat
  state : ScopeState
deriving DecidableEq, Repr

/-- trivy.py line 39: `unique_str = f"{cve}-{pkg}-{ver}-{release.id}"`. -/
def uniqueStr (cve pkg ver relId : String) : String :=
  cve ++ "-" ++ pkg ++ "-" ++ ver ++ "-" ++ relId

/-- trivy.py lines 50–52: a re-observed `FIXED` finding is reopened, any
other status is preserved. -/
def flipStatus (s : FStatus) : FStatus :=
  if s = FStatus.FIXED then FStatus.OPEN else s

/-- `seen_hashes.add(h)`: sets are modelled as duplicate-free lists. -/
def insertHash (seen : List String) (h : String) : List String :=
  if h ∈ seen then seen else seen ++ [h]

/-- Adding a whole list of hashes to the seen set, in order. -/
def foldIns (seen : List String) : List String → List String
  | [] => seen
  | h :: hs => foldIns (insertHash seen h) hs

/-- `existing_map[h]`: the dict comprehension `{f.hash_id: f for f in …}`
keeps the last row with each hash, so lookup returns the last matching row
(together with its position, which stands in for the object reference). -/
def lookupLast : List FindingRow → String → Option (Nat × FindingRow)
  | [], _ => none
  | r :: rs, h =>
      match lookupLast rs h with
      | some (i, x) => some (i + 1, x)
      | none => if r.hash_id = h then some (0, r) else none

/-- The loop accumulators of `TrivyScanner.parse` (and trufflehog's copy):
`seen_hashes`, `to_create`, `to_update`.  Updates are `(row position,
new row value)` pairs: only `scan`, `last_seen` and `status` differ from
the stored row, matching the `bulk_update` field list. -/
structure LoopAcc where
  seen : List String
  toCreate : List FindingRow
  toUpdate : List (Nat × FindingRow)
deriving Repr

/-- trivy.py lines 50–56 (and trufflehog.py lines 115–121): the in-place
mutation of a re-observed finding object: reopen when `FIXED`, re-point the
scan, refresh `last_seen`. -/
def updRow (scanId now : Nat) (x : FindingRow) : FindingRow :=
  { x with status := flipStatus x.status, scan := scanId, last_seen := now }

/-- trivy.py lines 34–40: natural-key extraction and fingerprint for one
`Vulnerabilities` entry. -/
def candHashE (relId : String) (vuln : Json) : Except String String := do
  let cve ← jGetD vuln "VulnerabilityID" (Json.str "Unknown")
  let pkg ← jGetD vuln "PkgName" (Json.str "Unknown")
  let ver ← jGetD vuln "InstalledVersion" (Json.str "Unknown")
  .ok (sha256Hex (uniqueStr (pyStr cve) (pyStr pkg) (pyStr ver) relId))

/-- trivy.py lines 62–72: the extra field accesses performed only when a
candidate is new.  `Severity` must be a string (`.upper()`), and the `CVSS`
/ `nvd` levels must be dicts (`.get` chains); a violation raises and aborts
the whole parse.  Only the extracted severity is kept on the row. -/
def payloadOf (vuln : Json) : Except String String := do
  let sevJ ← jGetD vuln "Severity" (Json.str "INFO")
  let sev ← jAsStr sevJ
  let cvss ← jGetD vuln "CVSS" (Json.obj [])
  let nvd ← jGetD cvss "nvd" (Json.obj [])
  let _v2 ← jGetD nvd "V2Score" (Json.str "")
  let _v3 ← jGetD nvd "V3Score" (Json.str "")
  let _vec ← jGetD nvd "V3Vector" (Json.str "")
  .ok (pyUpper sev)

/-- A freshly created SCA finding row (trivy.py lines 68–88). -/
def mkTrivyRow (scanId now : Nat) (h sev : String) : FindingRow :=
  { hash_id := h, status := FStatus.OPEN, severity := sev,
    ftype := FType.SCA, kev := false, last_seen := now, scan := scanId }

/-- One iteration of the vulnerability loop (trivy.py lines 33–88). -/
def processVuln (rows : List FindingRow) (relId : String) (scanId now : Nat)
    (acc : LoopAcc) (vuln : Json) : Except String LoopAcc := do
  let h ← candHashE relId vuln
  match lookupLast rows h with
  | some (i, obj) =>
      .ok { acc with
            seen := insertHash acc.seen h,
            toUpdate := acc.toUpdate ++ [(i, updRow scanId now obj)] }
  | none => do
      let sev ← payloadOf vuln
      .ok { acc with
            seen := insertHash acc.seen h,
            toCreate := acc.toCreate ++ [mkTrivyRow scanId now h sev] }

/-- The whole vulnerability loop. -/
def runVulns (rows : List FindingRow) (relId : String) (scanId now : Nat) :
    LoopAcc → List Json → Except String LoopAcc
  | acc, [] => .ok acc
  | acc, v :: vs => do
      let acc' ← processVuln rows relId scanId now acc v
      runVulns rows relId scanId now acc' vs

/-- Flattening the two nested loops of trivy.py lines 31–33: collect the
`Vulnerabilities` arrays of all `Results` entries.  (In the source the
inner loop of an earlier result runs before a later result is inspected,
but an exception anywhere discards all in-memory work, so flattening first
is observationally equivalent.) -/
def getVulnList : List Json → Except String (List Json)
  | [] => .ok []
  | r :: rs => do
      let vj ← jGetD r "Vulnerabilities" (Json.arr [])
      let vs ← jAsArr vj
      let rest ← getVulnList rs
      .ok (vs ++ rest)

/-- `Finding.objects.bulk_update(to_update, ['scan','last_seen','status'])`:
each queued update overwrites the row at its recorded position. -/
def applyUpdates (rows : List FindingRow) : List (Nat × FindingRow) → List FindingRow
  | [] => rows
  | (i, r) :: rest => applyUpdates (rows.set i r) rest

/-- trivy.py lines 100–111: the auto-close pass over one row.  A row whose
hash was previously known but not re-observed, and which is not already
`FIXED`, is closed and its `last_seen` bumped. -/
def autoCloseRow (origHashes seen : List String) (now : Nat) (r : FindingRow) : FindingRow :=
  if r.hash_id ∈ origHashes ∧ r.hash_id ∉ seen ∧ r.status ≠ FStatus.FIXED then
    { r with status := FStatus.FIXED, last_seen := now }
  else r

/-- The hash column of the stored rows (the keys of `existing_map`,
with multiplicity). -/
def rowHashes (rows : List FindingRow) : List String :=
  rows.map FindingRow.hash_id

/-- trivy.py lines 90–115 (shared verbatim with trufflehog.py lines
183–208): bulk create, bulk update, auto-close, snapshot. -/
def reconcileTail (st : ScopeState) (acc : LoopAcc) (now : Nat) : Nat × Nat × ScopeState :=
  let rows1 := st.rows ++ acc.toCreate
  let rows2 := applyUpdates rows1 acc.toUpdate
  let rows3 := rows2.map (autoCloseRow (rowHashes st.rows) acc.seen now)
  (acc.seen.length, acc.seen.length, ⟨rows3⟩)

/-- `TrivyScanner.parse` body (trivy.py lines 11–117), with exceptions as
`Except.error`. -/
def trivyParseE (relId : String) (scanId now : Nat) (doc : Json) (st : ScopeState) :
    Except String (Nat × Nat × ScopeState) := do
  let resultsJ ← jGetD doc "Results" (Json.arr [])
  let results ← jAsArr resultsJ
  let vulns ← getVulnList results
  let acc ← runVulns st.rows relId scanId now ⟨[], [], []⟩ vulns
  .ok (reconcileTail st acc now)

/-- `TrivyScanner.parse` (trivy.py lines 10–121): the outer
`try/except Exception` returns 0 on any failure, leaving the store and the
scan's previous `findings_count` untouched. -/
def trivyParse (relId : String) (scanId now fc0 : Nat) (doc : Json) (st : ScopeState) :
    ParseResult :=
  match trivyParseE relId scanId now doc st with
  | .ok (ret, fc, st') => ⟨ret, fc, st'⟩
  | .error _ => ⟨0, fc0, st⟩

/-- The multiset of fingerprints a document denotes (trivy.py lines 34–40
applied to every entry), independent of the store. -/
def vulnHashesE (relId : String) : List Json → Except String (List String)
  | [] => .ok []
  | v :: vs => do
      let h ← candHashE relId v
      let hs ← vulnHashesE relId vs
      .ok (h :: hs)

/-- The flattened `Vulnerabilities` entries of a raw document. -/
def docVulnsE (doc : Json) : Except String (List Json) := do
  let resultsJ ← jGetD doc "Results" (Json.arr [])
  let results ← jAsArr resultsJ
  getVulnList results

/-- The candidate fingerprint list of a whole raw document. -/
def docHashes (relId : String) (doc : Json) : Except String (List String) := do
  let vulns ← docVulnsE doc
  vulnHashesE relId vulns

end Findings

/-- `Finding.save` (core/models.py lines 220–237): the model-level
fingerprint, computed from type-specific natural keys plus the owning
release id when a scanner did not set `hash_id` explicitly. -/
def findingSaveHash (ftype : FType) (vulnerability_id package_name package_version : String)
    (file_path : String) (line_number : Int) (title : String)
    (secret_hash : String) (relId : String) : String :=
  match ftype with
  | FType.SECRET => sha256Hex (file_path ++ "-" ++ secret_hash ++ "-" ++ relId)
  | FType.SCA => sha256Hex (vulnerability_id ++ "-" ++ package_name ++ "-" ++
      package_version ++ "-" ++ relId)
  | _ => sha256Hex (file_path ++ "-" ++ toString line_number ++ "-" ++ title ++ "-" ++ relId)

section RiskEngine

/-!
`ReleaseViewSet.summary` (core/api/views.py lines 710–767).  The findings
queryset is a list of `FindingRow`; the artifact and direct-scan counts of
the release are explicit inputs (`release.artifacts.count()` and
`release.scans.count()`), since the linking tables live outside the engine.
Arithmetic on Python floats is modelled over `ℚ`.
-/

/-- `all_findings.filter(status='OPEN')`. -/
def activeFindings (fs : List FindingRow) : List FindingRow :=
  fs.filter (fun f => f.status = FStatus.OPEN)

/-- `active_findings.filter(metadata__kev_status=True).count()`. -/
def kevCount (fs : List FindingRow) : Nat :=
  ((activeFindings fs).filter (fun f => f.kev = true)).length

/-- `active_findings.filter(finding_type='SECRET').count()`. -/
def secretCount (fs : List FindingRow) : Nat :=
  ((activeFindings fs).filter (fun f => f.ftype = FType.SECRET)).length

/-- `active_findings.filter(severity=sev).count()`. -/
def sevCount (fs : List FindingRow) (sev : String) : Nat :=
  ((activeFindings fs).filter (fun f => f.severity = sev)).length

/-- views.py lines 717–720: `artifact_count = release.artifacts.count()`;
when that is zero, `artifact_count = release.scans.count() or 1`. -/
def artifactCountOf (numArtifacts numScans : Nat) : Nat :=
  if numArtifacts = 0 then (if numScans = 0 then 1 else numScans) else numArtifacts

/-- views.py lines 722–743: Total Risk Points with the weighting constants
`W_KEV=50, W_SECRET=50, W_CRITICAL=10, W_HIGH=2, W_MEDIUM=0.5`. -/
def trpOf (fs : List FindingRow) : ℚ :=
  (kevCount fs : ℚ) * 50 + (secretCount fs : ℚ) * 50 +
  (sevCount fs "CRITICAL" : ℚ) * 10 + (sevCount fs "HIGH" : ℚ) * 2 +
  (sevCount fs "MEDIUM" : ℚ) * (1 / 2)

/-- views.py line 746:
`risk_density = trp / artifact_count if artifact_count > 0 else trp`. -/
def riskDensityOf (fs : List FindingRow) (numArtifacts numScans : Nat) : ℚ :=
  let ac := artifactCountOf numArtifacts numScans
  if 0 < ac then trpOf fs / (ac : ℚ) else trpOf fs

/-- Python's `round`: round half to even. -/
def pyRound (q : ℚ) : ℤ :=
  if q - (⌊q⌋ : ℚ) < 1 / 2 then ⌊q⌋
  else if 1 / 2 < q - (⌊q⌋ : ℚ) then ⌊q⌋ + 1
  else if ⌊q⌋ % 2 = 0 then ⌊q⌋ else ⌊q⌋ + 1

/-- views.py lines 748–752: `risk_score = round(100 / (1 + risk_density / 25))`. -/
def riskScoreOf (fs : List FindingRow) (numArtifacts numScans : Nat) : ℤ :=
  pyRound (100 / (1 + riskDensityOf fs numArtifacts numScans / 25))

/-- views.py lines 754–762: grade mapping. -/
def healthGradeOf (riskScore : ℤ) : String :=
  if riskScore ≥ 90 then "A"
  else if riskScore ≥ 80 then "B"
  else if riskScore ≥ 70 then "C"
  else "F"

/-- views.py line 766: compliant iff no open KEV and no open secret. -/
def complianceStatusOf (fs : List FindingRow) : Bool :=
  decide (kevCount fs = 0) && decide (secretCount fs = 0)

/-- views.py line 767: `compliance_blocking_issues = kev_count + secret_count`. -/
def complianceBlockingOf (fs : List FindingRow) : Nat :=
  kevCount fs + secretCount fs

/-- Spec-side formula for the risk-density divisor, following the spec's
words: `risk_density = TRP / max(artifact_count, 1)` where `artifact_count`
is the release's linked-artifact count.  Kept separate from
`riskDensityOf`, which is translated from the code, so the two can be
compared. -/
def riskDensityClaimed (t : ℚ) (numArtifacts : Nat) : ℚ :=
  t / (max numArtifacts 1 : ℚ)

end RiskEngine

section ScanUpsert

/-!
`get_or_create_scan_for_artifact` (core/services/artifact.py lines
120–162).  Timestamps are minutes since an epoch; `timezone.now().replace(
hour=0, minute=0, …)` becomes the enclosing day's first minute.
-/

/-- `Scan.STATUS_CHOICES` (core/models.py). -/
inductive ScanStatus where
  | PENDING | PROCESSING | COMPLETED | FAILED
deriving DecidableEq, Repr

/-- A stored `Scan` row, with the columns the upsert service reads. -/
structure ScanRec where
  id : Nat
  artifactId : Nat
  scanner_name : String
  started_at : Nat
  sstatus : ScanStatus
deriving DecidableEq, Repr

/-- Midnight of the day containing `now` (minutes, 1440 per day). -/
def startOfDay (now : Nat) : Nat := now / 1440 * 1440

/-- The dedup filter of artifact.py lines 145–150: same artifact and
scanner, started today, status in `{PENDING, PROCESSING, COMPLETED}`. -/
def scanDedupPred (aId : Nat) (sname : String) (todayStart : Nat) (s : ScanRec) : Bool :=
  s.artifactId = aId ∧ s.scanner_name = sname ∧ todayStart ≤ s.started_at ∧
    (s.sstatus = ScanStatus.PENDING ∨ s.sstatus = ScanStatus.PROCESSING ∨
     s.sstatus = ScanStatus.COMPLETED)

/-- `.order_by('-started_at').first()`: the row with the largest
`started_at` (the earliest stored one among ties). -/
def bestScan : List ScanRec → Option ScanRec
  | [] => none
  | r :: rs =>
      match bestScan rs with
      | none => some r
      | some b => if r.started_at < b.started_at then some b else some r

/-- Result of `get_or_create_scan_for_artifact`. -/
structure GocsResult where
  scan : ScanRec
  isNew : Bool
  db : List ScanRec
deriving Repr

/-- `get_or_create_scan_for_artifact(artifact, scanner_name, …)`.  The
`deduplication_window_hours` parameter is accepted and, as in the source,
never read: the window is the current calendar day.  `nextId` models the
primary key the store assigns to a created row. -/
def getOrCreateScanForArtifact (db : List ScanRec) (aId : Nat) (sname : String)
    (now nextId deduplication_window_hours : Nat) : GocsResult :=
  let _ := deduplication_window_hours
  let todayStart := startOfDay now
  match bestScan (db.filter (scanDedupPred aId sname todayStart)) with
  | some recent => ⟨recent, false, db⟩
  | none =>
      let newScan : ScanRec := ⟨nextId, aId, sname, now, ScanStatus.PENDING⟩
      ⟨newScan, true, db ++ [newScan]⟩

end ScanUpsert

section Sbom

/-!
`digest_sbom` (core/services/sbom.py).  Components of the release are a
list; `bulk_update(batch_update, ['status'])` writes only the status
column, so queued updates are `(position, status)` pairs.
-/

/-- `Component.STATUS_CHOICES` (core/models.py). -/
inductive CStatus where
  | NEW | REMOVED | UNCHANGED
deriving DecidableEq, Repr

/-- A stored `Component` row. -/
structure Component where
  name : String
  version : String
  ctype : String
  purl : String
  license : String
  cstatus : CStatus
deriving DecidableEq, Repr

/-- sbom.py line 24: `comp.purl if comp.purl else f"{comp.name}@{comp.version}"`. -/
def componentKey (c : Component) : String :=
  if c.purl ≠ "" then c.purl else c.name ++ "@" ++ c.version

/-- The `existing_map` of sbom.py lines 20–25: key → position of the last
non-`REMOVED` component with that key.  `skip` is the position of the head
of `comps` in the full list. -/
def lastAssoc : List (String × Nat) → String → Option Nat
  | [], _ => none
  | (k, i) :: rest, key =>
      match lastAssoc rest key with
      | some j => some j
      | none => if k = key then some i else none

/-- Build the key → position pairs for the non-`REMOVED` components,
in store order starting at position `skip`. -/
def buildCompMap (skip : Nat) : List Component → List (String × Nat)
  | [] => []
  | c :: cs =>
      if c.cstatus = CStatus.REMOVED then buildCompMap (skip + 1) cs
      else (componentKey c, skip) :: buildCompMap (skip + 1) cs

/-- sbom.py lines 36–41: `item['licenses'][0]['license']['id']` guarded by
a membership-and-truthiness test and a bare `except: pass`, defaulting to
`"Unknown"`. -/
def licenseOf (item : Json) : String :=
  match item with
  | .obj fields =>
      match fields.lookup "licenses" with
      | some (.arr (first :: _)) =>
          match first with
          | .obj f2 =>
              match f2.lookup "license" with
              | some (.obj f3) =>
                  match f3.lookup "id" with
                  | some v => pyStr v
                  | none => "Unknown"
              | _ => "Unknown"
          | _ => "Unknown"
      | _ => "Unknown"
  | _ => "Unknown"

/-- sbom.py lines 52 and 69: restrict the upper-cased type to the model's
chargeable choices. -/
def normCompType (t : String) : String :=
  if t = "LIBRARY" ∨ t = "FRAMEWORK" ∨ t = "CONTAINER" then t else "LIBRARY"

/-- Loop accumulators of `digest_sbom`: rows to create, status updates
(by position) and the keys of the new document. -/
structure SbomAcc where
  batchCreate : List Component
  batchUpdate : List (Nat × CStatus)
  newKeys : List String
deriving Repr

/-- sbom.py lines 32–74: process one `components` entry. -/
def processItem (cmap : List (String × Nat)) (acc : SbomAcc) (item : Json) :
    Except String SbomAcc := do
  let ctypeJ ← jGetD item "type" (Json.str "library")
  let ctypeS ← jAsStr ctypeJ
  let c_type := pyUpper ctypeS
  let license_id := licenseOf item
  let nameJ ← jGetD item "name" (Json.str "unknown")
  let versionJ ← jGetD item "version" (Json.str "0.0.0")
  let purlJ ← jGetD item "purl" (Json.str "")
  let name := pyStr nameJ
  let version := pyStr versionJ
  let key := if pyTruthy purlJ then pyStr purlJ else name ++ "@" ++ version
  let acc := { acc with newKeys := acc.newKeys ++ [key] }
  match lastAssoc cmap key with
  | some i => .ok { acc with batchUpdate := acc.batchUpdate ++ [(i, CStatus.UNCHANGED)] }
  | none => .ok { acc with batchCreate := acc.batchCreate ++
      [⟨name, version, normCompType c_type, pyStr purlJ, license_id, CStatus.NEW⟩] }

/-- The item loop. -/
def runItems (cmap : List (String × Nat)) : SbomAcc → List Json → Except String SbomAcc
  | acc, [] => .ok acc
  | acc, item :: items => do
      let acc' ← processItem cmap acc item
      runItems cmap acc' items

/-- Apply the queued status updates (`bulk_update(batch_update, ['status'])`). -/
def applyCompUpdates (comps : List Component) : List (Nat × CStatus) → List Component
  | [] => comps
  | (i, s) :: rest =>
      applyCompUpdates
        (match comps.get? i with
         | some c => comps.set i { c with cstatus := s }
         | none => comps) rest

/-- sbom.py lines 77–81: previously-present keys absent from the new
document are marked `REMOVED`. -/
def removedUpdates (cmap : List (String × Nat)) (newKeys : List String) :
    List (Nat × CStatus) :=
  (cmap.filter (fun p => p.1 ∉ newKeys)).map (fun p => (p.2, CStatus.REMOVED))

/-- `digest_sbom` body (sbom.py lines 13–89), with exceptions as errors. -/
def digestSbomE (comps : List Component) (doc : Json) : Except String (List Component) := do
  let itemsJ ← jGetD doc "components" (Json.arr [])
  let items ← jAsArr itemsJ
  let cmap := buildCompMap 0 comps
  let acc ← runItems cmap ⟨[], [], []⟩ items
  let upds := acc.batchUpdate ++ removedUpdates cmap acc.newKeys
  .ok (applyCompUpdates comps upds ++ acc.batchCreate)

/-- `digest_sbom` (sbom.py lines 5–92): any parsing failure is caught and
leaves the component table untouched. -/
def digestSbom (comps : List Component) (doc : Json) : List Component :=
  match digestSbomE comps doc with
  | .ok out => out
  | .error _ => comps

/-- The key an entry of the new document denotes (sbom.py lines 43–48),
independent of the store. -/
def itemKeyE (item : Json) : Except String String := do
  let ctypeJ ← jGetD item "type" (Json.str "library")
  let _ ← jAsStr ctypeJ
  let nameJ ← jGetD item "name" (Json.str "unknown")
  let versionJ ← jGetD item "version" (Json.str "0.0.0")
  let purlJ ← jGetD item "purl" (Json.str "")
  .ok (if pyTruthy purlJ then pyStr purlJ else pyStr nameJ ++ "@" ++ pyStr versionJ)

end Sbom

section Trufflehog

/-!
`TrufflehogScanner.parse` (core/scanners/trufflehog.py lines 31–216).  The
scope (artifact, release, or the scan itself — lines 40–52) only selects
which rows are loaded and which id salts the fingerprint; it is a `String`
input here, with the scope's rows as the state.  Title, description,
secret-preview and line-number extraction build display-only columns and
are omitted from the row; the type checks Python performs while building
them (`diff` string slicing) are kept, since their failures abort the
parse.
-/

/-- A freshly created secret finding row (trufflehog.py lines 161–181):
status `OPEN`, severity `CRITICAL`, type `SECRET`. -/
def mkSecretRow (scanId now : Nat) (h : String) : FindingRow :=
  { hash_id := h, status := FStatus.OPEN, severity := "CRITICAL",
    ftype := FType.SECRET, kev := false, last_seen := now, scan := scanId }

/-- trufflehog.py lines 98–181: one `stringsFound` entry. -/
def processSecret (rows : List FindingRow) (scopeId : String) (scanId now : Nat)
    (path diffJ : Json) (acc : LoopAcc) (secret : Json) : Except String LoopAcc := do
  let sec ← jAsStr secret
  let secret_hash := sha256Hex sec
  let h := sha256Hex (pyStr path ++ "-" ++ secret_hash ++ "-" ++ scopeId)
  match lookupLast rows h with
  | some (i, obj) =>
      .ok { acc with
            seen := insertHash acc.seen h,
            toUpdate := acc.toUpdate ++ [(i, updRow scanId now obj)] }
  | none => do
      let _ ← if pyTruthy diffJ then do
          let _ ← jAsStr diffJ
          pure ()
        else pure ()
      .ok { acc with
            seen := insertHash acc.seen h,
            toCreate := acc.toCreate ++ [mkSecretRow scanId now h] }

/-- The inner loop over `stringsFound`. -/
def runSecretStrings (rows : List FindingRow) (scopeId : String) (scanId now : Nat)
    (path diffJ : Json) : LoopAcc → List Json → Except String LoopAcc
  | acc, [] => .ok acc
  | acc, s :: ss => do
      let acc' ← processSecret rows scopeId scanId now path diffJ acc s
      runSecretStrings rows scopeId scanId now path diffJ acc' ss

/-- trufflehog.py lines 86–94: per-finding field extraction, then the
inner loop. -/
def processFindingData (rows : List FindingRow) (scopeId : String) (scanId now : Nat)
    (acc : LoopAcc) (fd : Json) : Except String LoopAcc := do
  let path ← jGetD fd "path" (Json.str "Unknown")
  let _reason ← jGetD fd "reason" (Json.str "Secret detected")
  let _commitHash ← jGetD fd "commitHash" (Json.str "")
  let stringsJ ← jGetD fd "stringsFound" (Json.arr [])
  let strs ← jAsArr stringsJ
  let _branch ← jGetD fd "branch" (Json.str "")
  let _commit ← jGetD fd "commit" (Json.str "")
  let diffJ ← jGetD fd "diff" (Json.str "")
  runSecretStrings rows scopeId scanId now path diffJ acc strs

/-- The outer loop over `findings_data`. -/
def runFindingsData (rows : List FindingRow) (scopeId : String) (scanId now : Nat) :
    LoopAcc → List Json → Except String LoopAcc
  | acc, [] => .ok acc
  | acc, fd :: fds => do
      let acc' ← processFindingData rows scopeId scanId now acc fd
      runFindingsData rows scopeId scanId now acc' fds

/-- trufflehog.py lines 60–71: a list is taken as is, a single object is
wrapped, anything else hits the explicit `return 0`. -/
def thogFindingsData (doc : Json) : Option (List Json) :=
  match doc with
  | .arr l => some l
  | .obj _ => some [doc]
  | _ => none

/-- `TrufflehogScanner.parse` body (trufflehog.py lines 32–210). -/
def thogParseE (scopeId : String) (scanId now fc0 : Nat) (doc : Json) (st : ScopeState) :
    Except String (Nat × Nat × ScopeState) :=
  match thogFindingsData doc with
  | none => .ok (0, fc0, st)
  | some fds => do
      let acc ← runFindingsData st.rows scopeId scanId now ⟨[], [], []⟩ fds
      .ok (reconcileTail st acc now)

/-- `TrufflehogScanner.parse` (trufflehog.py lines 31–216): the outer
`try/except Exception` returns 0 on any failure, leaving the store and the
scan's previous `findings_count` untouched. -/
def thogParse (scopeId : String) (scanId now fc0 : Nat) (doc : Json) (st : ScopeState) :
    ParseResult :=
  match thogParseE scopeId scanId now fc0 doc st with
  | .ok (ret, fc, st') => ⟨ret, fc, st'⟩
  | .error _ => ⟨0, fc0, st⟩

end Trufflehog

section ListLemmas

/-! Pure facts about the set, lookup and bulk-update models. -/

lemma mem_insertHash {seen : List String} {h x : String} :
    x ∈ insertHash seen h ↔ x ∈ seen ∨ x = h := by
  unfold insertHash
  by_cases hm : h ∈ seen
  · rw [if_pos hm]
    constructor
    · exact fun hx => Or.inl hx
    · rintro (hx | rfl)
      · exact hx
      · exact hm
  · rw [if_neg hm]; simp

lemma nodup_insertHash {seen : List String} {h : String} (hn : seen.Nodup) :
    (insertHash seen h).Nodup := by
  unfold insertHash
  by_cases hm : h ∈ seen
  · simpa [if_pos hm] using hn
  · simpa [if_neg hm, List.nodup_append] using ⟨hn, hm⟩

lemma mem_foldIns {hs : List String} : ∀ {seen x},
    x ∈ foldIns seen hs ↔ x ∈ seen ∨ x ∈ hs := by
  induction hs with
  | nil => intro seen x; simp [foldIns]
  | cons h hs ih =>
      intro seen x
      rw [foldIns, ih, mem_insertHash]
      simp only [List.mem_cons]
      tauto

lemma nodup_foldIns {hs : List String} : ∀ {seen : List String},
    seen.Nodup → (foldIns seen hs).Nodup := by
  induction hs with
  | nil => intro seen hn; exact hn
  | cons h hs ih => intro seen hn; exact ih (nodup_insertHash hn)

lemma length_foldIns_nil (hs : List String) :
    (foldIns [] hs).length = hs.toFinset.card := by
  have hnd : (foldIns [] hs).Nodup := nodup_foldIns List.nodup_nil
  have hset : (foldIns [] hs).toFinset = hs.toFinset := by
    ext x
    simp [List.mem_toFinset, mem_foldIns]
  calc (foldIns [] hs).length = (foldIns [] hs).toFinset.card :=
        (List.toFinset_card_of_nodup hnd).symm
    _ = hs.toFinset.card := by rw [hset]

lemma lookupLast_eq_none {h : String} : ∀ {rows : List FindingRow},
    lookupLast rows h = none ↔ h ∉ rowHashes rows := by
  intro rows
  induction rows with
  | nil => simp [lookupLast, rowHashes]
  | cons r rs ih =>
      rw [lookupLast]
      cases hrec : lookupLast rs h with
      | some p =>
          obtain ⟨i, x⟩ := p
          have hmem : h ∈ rowHashes rs := by
            by_contra hnot
            rw [← ih] at hnot
            rw [hrec] at hnot
            cases hnot
          simp only [rowHashes, List.map_cons, List.mem_cons, not_or]
          constructor
          · intro hcontra; cases hcontra
          · intro hcontra
            exact absurd hmem hcontra.2
      | none =>
          have hnot : h ∉ rowHashes rs := ih.mp hrec
          by_cases hr : r.hash_id = h
          · simp [hr, rowHashes]
          · simp only [if_neg hr]
            simp only [rowHashes, List.map_cons, List.mem_cons, not_or]
            constructor
            · intro _
              exact ⟨fun hc => hr hc.symm, hnot⟩
            · intro _
              trivial

lemma lookupLast_isSome {rows : List FindingRow} {h : String} (hmem : h ∈ rowHashes rows) :
    ∃ i x, lookupLast rows h = some (i, x) := by
  cases hll : lookupLast rows h with
  | none => exact absurd (lookupLast_eq_none.mp hll) (not_not_intro hmem)
  | some p => exact ⟨p.1, p.2, by simpa using hll⟩

lemma lookupLast_spec {h : String} : ∀ {rows : List FindingRow} {i : Nat} {x : FindingRow},
    lookupLast rows h = some (i, x) →
      rows.get? i = some x ∧ x.hash_id = h := by
  intro rows
  induction rows with
  | nil => intro i x hll; cases hll
  | cons r rs ih =>
      intro i x hll
      rw [lookupLast] at hll
      cases hrec : lookupLast rs h with
      | some p =>
          obtain ⟨j, y⟩ := p
          rw [hrec] at hll
          obtain ⟨rfl, rfl⟩ : j + 1 = i ∧ y = x := by
            constructor <;> cases hll <;> rfl
          obtain ⟨hget, hhash⟩ := ih hrec
          exact ⟨by simpa using hget, hhash⟩
      | none =>
          rw [hrec] at hll
          by_cases hr : r.hash_id = h
          · rw [if_pos hr] at hll
            obtain ⟨rfl, rfl⟩ : 0 = i ∧ r = x := by
              constructor <;> cases hll <;> rfl
            exact ⟨rfl, hr⟩
          · rw [if_neg hr] at hll; cases hll

lemma lookupLast_is_last {h : String} : ∀ {rows : List FindingRow} {i : Nat} {x : FindingRow},
    lookupLast rows h = some (i, x) →
      ∀ j y, rows.get? j = some y → y.hash_id = h → j ≤ i := by
  intro rows
  induction rows with
  | nil => intro i x hll; cases hll
  | cons r rs ih =>
      intro i x hll j y hget hhash
      rw [lookupLast] at hll
      cases hrec : lookupLast rs h with
      | some p =>
          obtain ⟨k, z⟩ := p
          rw [hrec] at hll
          obtain ⟨rfl, rfl⟩ : k + 1 = i ∧ z = x := by
            constructor <;> cases hll <;> rfl
          cases j with
          | zero => exact Nat.zero_le _
          | succ j' =>
              have := ih hrec j' y (by simpa using hget) hhash
              omega
      | none =>
          rw [hrec] at hll
          by_cases hr : r.hash_id = h
          · rw [if_pos hr] at hll
            obtain ⟨rfl, rfl⟩ : 0 = i ∧ r = x := by
              constructor <;> cases hll <;> rfl
            cases j with
            | zero => exact Nat.le_refl 0
            | succ j' =>
                exfalso
                have hmem : h ∈ rowHashes rs := by
                  have : rs.get? j' = some y := by simpa using hget
                  simp only [rowHashes, List.mem_map]
                  exact ⟨y, List.get?_mem this, hhash⟩
                exact (lookupLast_eq_none.mp hrec) hmem
          · rw [if_neg hr] at hll; cases hll

lemma lookupLast_of_nodup {rows : List FindingRow} {j : Nat} {r : FindingRow}
    (hnd : (rowHashes rows).Nodup) (hget : rows.get? j = some r) :
    lookupLast rows r.hash_id = some (j, r) := by
  have hmem : r.hash_id ∈ rowHashes rows := by
    simp only [rowHashes, List.mem_map]
    exact ⟨r, List.get?_mem hget, rfl⟩
  obtain ⟨i, x, hll⟩ := lookupLast_isSome hmem
  obtain ⟨hgi, hhx⟩ := lookupLast_spec hll
  have hij : i = j := by
    have hji : (rowHashes rows).get? j = some r.hash_id := by
      rw [rowHashes, List.get?_map, hget]; rfl
    have hii : (rowHashes rows).get? i = some r.hash_id := by
      rw [rowHashes, List.get?_map, hgi]
      exact congrArg some hhx
    have hilen : i < (rowHashes rows).length := by
      by_contra hge
      rw [List.get?_eq_none.mpr (Nat.le_of_not_lt hge)] at hii
      cases hii
    exact List.get?_inj hilen hnd (by rw [hji, hii])
  subst hij
  have hxr : x = r := by rw [hget] at hgi; cases hgi; rfl
  rw [hll, hxr]

/-- The update queue the vulnerability loop produces, as a function of the
candidate hash sequence alone. -/
def updsOf (rows : List FindingRow) (scanId now : Nat) : List String → List (Nat × FindingRow)
  | [] => []
  | h :: hs =>
      match lookupLast rows h with
      | some (i, x) => (i, updRow scanId now x) :: updsOf rows scanId now hs
      | none => updsOf rows scanId now hs

/-- The rows the vulnerability loop queues for creation: one per candidate
occurrence whose hash is not already stored. -/
def newRowsE (rows : List FindingRow) (relId : String) (scanId now : Nat) :
    List Json → Except String (List FindingRow)
  | [] => .ok []
  | v :: vs => do
      let h ← candHashE relId v
      match lookupLast rows h with
      | some _ => newRowsE rows relId scanId now vs
      | none => do
          let sev ← payloadOf v
          let rest ← newRowsE rows relId scanId now vs
          .ok (mkTrivyRow scanId now h sev :: rest)

lemma length_applyUpdates : ∀ (ups : List (Nat × FindingRow)) (rows : List FindingRow),
    (applyUpdates rows ups).length = rows.length := by
  intro ups
  induction ups with
  | nil => intro rows; rfl
  | cons p rest ih =>
      intro rows
      obtain ⟨i, r⟩ := p
      rw [applyUpdates, ih, List.length_set]

lemma get?_applyUpdates_of_ne : ∀ (ups : List (Nat × FindingRow)) (rows : List FindingRow)
    (j : Nat), (∀ p ∈ ups, p.1 ≠ j) →
    (applyUpdates rows ups).get? j = rows.get? j := by
  intro ups
  induction ups with
  | nil => intro rows j _; rfl
  | cons p rest ih =>
      intro rows j hne
      obtain ⟨i, r⟩ := p
      rw [applyUpdates, ih _ _ (fun q hq => hne q (List.mem_cons_of_mem _ hq))]
      exact List.get?_set_ne r rows (hne (i, r) (List.mem_cons_self _ _))

lemma get?_applyUpdates_constant : ∀ (ups : List (Nat × FindingRow)) (rows : List FindingRow)
    (j : Nat) (v : FindingRow), rows.get? j = some v →
    (∀ p ∈ ups, p.1 = j → p.2 = v) →
    (applyUpdates rows ups).get? j = some v := by
  intro ups
  induction ups with
  | nil => intro rows j v hv _; exact hv
  | cons p rest ih =>
      intro rows j v hv hval
      obtain ⟨i, r⟩ := p
      rw [applyUpdates]
      by_cases hij : i = j
      · subst hij
        have hr : r = v := hval (i, r) (List.mem_cons_self _ _) rfl
        subst hr
        have hlen : i < rows.length := by
          by_contra hge
          rw [List.get?_eq_none.mpr (Nat.le_of_not_lt hge)] at hv
          cases hv
        exact ih _ _ _ (List.get?_set_eq_of_lt r hlen)
          (fun q hq => hval q (List.mem_cons_of_mem _ hq))
      · exact ih _ _ _ (by rw [List.get?_set_ne r rows hij]; exact hv)
          (fun q hq => hval q (List.mem_cons_of_mem _ hq))

lemma mem_updsOf {rows : List FindingRow} {scanId now : Nat} : ∀ {hs : List String}
    {p : Nat × FindingRow}, p ∈ updsOf rows scanId now hs →
    ∃ h, h ∈ hs ∧ ∃ x, lookupLast rows h = some (p.1, x) ∧ p.2 = updRow scanId now x := by
  intro hs
  induction hs with
  | nil => intro p hp; cases hp
  | cons h hs ih =>
      intro p hp
      rw [updsOf] at hp
      cases hll : lookupLast rows h with
      | some q =>
          obtain ⟨i, x⟩ := q
          rw [hll] at hp
          rcases List.mem_cons.mp hp with rfl | hp'
          · exact ⟨h, List.mem_cons_self _ _, x, hll, rfl⟩
          · obtain ⟨h', hh', hrest⟩ := ih hp'
            exact ⟨h', List.mem_cons_of_mem _ hh', hrest⟩
      | none =>
          rw [hll] at hp
          obtain ⟨h', hh', hrest⟩ := ih hp
          exact ⟨h', List.mem_cons_of_mem _ hh', hrest⟩

/-- An index that is not the map position of any candidate hash keeps its
row across the bulk update. -/
lemma applyUpdates_untargeted {rows l : List FindingRow} {scanId now : Nat}
    {hs : List String} {j : Nat}
    (hnot : ∀ h ∈ hs, ∀ x, lookupLast rows h = some (j, x) → False) :
    (applyUpdates l (updsOf rows scanId now hs)).get? j = l.get? j := by
  apply get?_applyUpdates_of_ne
  intro p hp
  obtain ⟨h, hh, x, hll, _⟩ := mem_updsOf hp
  intro hj
  exact hnot h hh x (by rw [← hj]; exact hll)

/-- The map position of a re-observed hash receives exactly the mutated
row, no matter how often the hash occurs among the candidates. -/
lemma applyUpdates_targeted {rows : List FindingRow} {scanId now : Nat} {j : Nat}
    {r : FindingRow} (hrowsj : rows.get? j = some r)
    (hll : lookupLast rows r.hash_id = some (j, r)) :
    ∀ (hs : List String) (l : List FindingRow), l.get? j = some r → r.hash_id ∈ hs →
    (applyUpdates l (updsOf rows scanId now hs)).get? j = some (updRow scanId now r) := by
  have huniq : ∀ (hs : List String), ∀ p ∈ updsOf rows scanId now hs,
      p.1 = j → p.2 = updRow scanId now r := by
    intro hs p hp hj
    obtain ⟨h, _, x, hllx, hpx⟩ := mem_updsOf hp
    rw [hj] at hllx
    obtain ⟨hgx, _⟩ := lookupLast_spec hllx
    rw [hrowsj] at hgx
    cases hgx
    exact hpx
  intro hs
  induction hs with
  | nil => intro l _ hmem; cases hmem
  | cons h hs ih =>
      intro l hlj hmem
      rw [updsOf]
      cases hllh : lookupLast rows h with
      | some q =>
          obtain ⟨i, x⟩ := q
          rw [applyUpdates]
          by_cases hij : i = j
          · subst hij
            have hx : x = r := by
              have hgx : rows.get? i = some x := (lookupLast_spec hllh).1
              rw [hrowsj] at hgx
              cases hgx
              rfl
            subst hx
            have hlen : i < l.length := by
              by_contra hge
              rw [List.get?_eq_none.mpr (Nat.le_of_not_lt hge)] at hlj
              cases hlj
            exact get?_applyUpdates_constant _ _ _ _
              (List.get?_set_eq_of_lt _ hlen)
              (fun q hq hqj => huniq hs q hq hqj)
          · have hmem' : r.hash_id ∈ hs := by
              rcases List.mem_cons.mp hmem with heq | hm
              · rw [heq] at hll
                rw [hll] at hllh
                cases hllh
                exact absurd rfl hij
              · exact hm
            exact ih (l.set i (updRow scanId now x))
              (by rw [List.get?_set_ne _ _ hij]; exact hlj) hmem'
      | none =>
          have hmem' : r.hash_id ∈ hs := by
            rcases List.mem_cons.mp hmem with heq | hm
            · rw [heq] at hll
              rw [hll] at hllh
              cases hllh
            · exact hm
          exact ih l hlj hmem'

lemma exceptBind_ok_iff {ε α β : Type} {m : Except ε α} {k : α → Except ε β} {b : β} :
    (m >>= k) = Except.ok b ↔ ∃ a, m = Except.ok a ∧ k a = Except.ok b := by
  cases m with
  | ok a =>
      constructor
      · intro h; exact ⟨a, rfl, h⟩
      · rintro ⟨a', ha, hk⟩; cases ha; exact hk
  | error e =>
      constructor
      · intro h; cases h
      · rintro ⟨a, ha, _⟩; cases ha

/-- Characterization of the vulnerability loop: a successful run extends
`seen` with the candidate hash sequence, queues exactly the new rows for
creation and exactly the re-observation mutations for update. -/
lemma runVulns_char (rows : List FindingRow) (relId : String) (scanId now : Nat) :
    ∀ (vs : List Json) (acc acc' : LoopAcc),
      runVulns rows relId scanId now acc vs = .ok acc' →
      ∃ hs nrs, vulnHashesE relId vs = .ok hs ∧
        newRowsE rows relId scanId now vs = .ok nrs ∧
        acc'.seen = foldIns acc.seen hs ∧
        acc'.toCreate = acc.toCreate ++ nrs ∧
        acc'.toUpdate = acc.toUpdate ++ updsOf rows scanId now hs := by
  intro vs
  induction vs with
  | nil =>
      intro acc acc' hrun
      rw [runVulns] at hrun
      cases hrun
      exact ⟨[], [], rfl, rfl, rfl, (List.append_nil _).symm, (List.append_nil _).symm⟩
  | cons v vs ih =>
      intro acc acc' hrun
      rw [runVulns, exceptBind_ok_iff] at hrun
      obtain ⟨acc₁, hpv, hrest⟩ := hrun
      rw [processVuln, exceptBind_ok_iff] at hpv
      obtain ⟨h, hch, hpv⟩ := hpv
      cases hlk : lookupLast rows h with
      | some q =>
          obtain ⟨i, obj⟩ := q
          rw [hlk] at hpv
          cases hpv
          obtain ⟨hs', nrs', hvh, hnr, hseen, hcr, hup⟩ := ih _ _ hrest
          refine ⟨h :: hs', nrs', ?_, ?_, ?_, ?_, ?_⟩
          · rw [vulnHashesE, exceptBind_ok_iff]
            exact ⟨h, hch, by rw [exceptBind_ok_iff]; exact ⟨hs', hvh, rfl⟩⟩
          · rw [newRowsE, exceptBind_ok_iff]
            exact ⟨h, hch, by rw [hlk]; exact hnr⟩
          · rw [hseen]; rfl
          · simpa using hcr
          · rw [hup, updsOf, hlk]
            simp
      | none =>
          rw [hlk] at hpv
          rw [exceptBind_ok_iff] at hpv
          obtain ⟨sev, hsev, hpv⟩ := hpv
          cases hpv
          obtain ⟨hs', nrs', hvh, hnr, hseen, hcr, hup⟩ := ih _ _ hrest
          refine ⟨h :: hs', mkTrivyRow scanId now h sev :: nrs', ?_, ?_, ?_, ?_, ?_⟩
          · rw [vulnHashesE, exceptBind_ok_iff]
            exact ⟨h, hch, by rw [exceptBind_ok_iff]; exact ⟨hs', hvh, rfl⟩⟩
          · rw [newRowsE, exceptBind_ok_iff]
            refine ⟨h, hch, ?_⟩
            rw [hlk, exceptBind_ok_iff]
            exact ⟨sev, hsev, by rw [exceptBind_ok_iff]; exact ⟨nrs', hnr, rfl⟩⟩
          · rw [hseen]; rfl
          · rw [hcr]; simp
          · rw [hup, updsOf, hlk]

/-- The created rows are exactly the not-yet-stored candidate hashes, in
order and with multiplicity, all freshly `OPEN`. -/
lemma newRows_hashes {rows : List FindingRow} {relId : String} {scanId now : Nat} :
    ∀ {vs : List Json} {hs : List String} {nrs : List FindingRow},
      vulnHashesE relId vs = .ok hs →
      newRowsE rows relId scanId now vs = .ok nrs →
      nrs.map FindingRow.hash_id = hs.filter (fun h => (lookupLast rows h).isNone) ∧
      ∀ r ∈ nrs, r.status = FStatus.OPEN ∧ r.last_seen = now ∧ r.scan = scanId := by
  intro vs
  induction vs with
  | nil =>
      intro hs nrs hvh hnr
      cases hvh
      cases hnr
      exact ⟨rfl, fun r hr => absurd hr (List.not_mem_nil r)⟩
  | cons v vs ih =>
      intro hs nrs hvh hnr
      rw [vulnHashesE, exceptBind_ok_iff] at hvh
      obtain ⟨h, hch, hvh⟩ := hvh
      rw [exceptBind_ok_iff] at hvh
      obtain ⟨hs', hvh', heq⟩ := hvh
      cases heq
      rw [newRowsE, exceptBind_ok_iff] at hnr
      obtain ⟨h2, hch2, hnr⟩ := hnr
      rw [hch] at hch2
      cases hch2
      cases hlk : lookupLast rows h with
      | some q =>
          rw [hlk] at hnr
          obtain ⟨hmap, hflds⟩ := ih hvh' hnr
          refine ⟨?_, hflds⟩
          rw [List.filter_cons, hmap]
          have : (lookupLast rows h).isNone = false := by rw [hlk]; rfl
          simp [this]
      | none =>
          rw [hlk, exceptBind_ok_iff] at hnr
          obtain ⟨sev, _, hnr⟩ := hnr
          rw [exceptBind_ok_iff] at hnr
          obtain ⟨nrs', hnr', heq⟩ := hnr
          cases heq
          obtain ⟨hmap, hflds⟩ := ih hvh' hnr'
          constructor
          · rw [List.filter_cons]
            have : (lookupLast rows h).isNone = true := by rw [hlk]; rfl
            simp only [this, if_true, List.map_cons, hmap]
            rfl
          · intro r hr
            rcases List.mem_cons.mp hr with rfl | hr'
            · exact ⟨rfl, rfl, rfl⟩
            · exact hflds r hr'

/-- When every candidate hash is already stored, the loop cannot fail and
queues nothing for creation. -/
lemma newRowsE_all_existing {rows : List FindingRow} {relId : String} {scanId now : Nat} :
    ∀ {vs : List Json} {hs : List String},
      vulnHashesE relId vs = .ok hs → (∀ h ∈ hs, h ∈ rowHashes rows) →
      newRowsE rows relId scanId now vs = .ok [] := by
  intro vs
  induction vs with
  | nil => intro hs hvh _; rfl
  | cons v vs ih =>
      intro hs hvh hall
      rw [vulnHashesE, exceptBind_ok_iff] at hvh
      obtain ⟨h, hch, hvh⟩ := hvh
      rw [exceptBind_ok_iff] at hvh
      obtain ⟨hs', hvh', heq⟩ := hvh
      cases heq
      rw [newRowsE, exceptBind_ok_iff]
      refine ⟨h, hch, ?_⟩
      obtain ⟨i, x, hlk⟩ := lookupLast_isSome (hall h (List.mem_cons_self _ _))
      rw [hlk]
      exact ih hvh' (fun h' hh' => hall h' (List.mem_cons_of_mem _ hh'))

/-- When every candidate hash is already stored, the whole loop succeeds. -/
lemma runVulns_ok_of_existing {rows : List FindingRow} {relId : String} {scanId now : Nat} :
    ∀ {vs : List Json} {hs : List String},
      vulnHashesE relId vs = .ok hs → (∀ h ∈ hs, h ∈ rowHashes rows) →
      ∀ acc, ∃ acc', runVulns rows relId scanId now acc vs = .ok acc' := by
  intro vs
  induction vs with
  | nil => intro hs _ _ acc; exact ⟨acc, rfl⟩
  | cons v vs ih =>
      intro hs hvh hall acc
      rw [vulnHashesE, exceptBind_ok_iff] at hvh
      obtain ⟨h, hch, hvh⟩ := hvh
      rw [exceptBind_ok_iff] at hvh
      obtain ⟨hs', hvh', heq⟩ := hvh
      cases heq
      obtain ⟨i, x, hlk⟩ := lookupLast_isSome (hall h (List.mem_cons_self _ _))
      obtain ⟨acc', hrest⟩ := ih hvh'
        (fun h' hh' => hall h' (List.mem_cons_of_mem _ hh'))
        { acc with seen := insertHash acc.seen h, toUpdate := acc.toUpdate ++ [(i, updRow scanId now x)] }
      refine ⟨acc', ?_⟩
      rw [runVulns, exceptBind_ok_iff]
      refine ⟨_, ?_, hrest⟩
      rw [processVuln, exceptBind_ok_iff]
      exact ⟨h, hch, by rw [hlk]⟩

/-- Characterization of a successful `TrivyScanner.parse`: the resulting
store is the original rows plus the created rows, with the re-observation
updates and the auto-close pass applied; the returned count (also persisted
as `findings_count`) is the number of distinct candidate hashes. -/
lemma trivyParseE_char {relId : String} {scanId now : Nat} {doc : Json} {st : ScopeState}
    {ret fc : Nat} {st' : ScopeState}
    (hok : trivyParseE relId scanId now doc st = .ok (ret, fc, st')) :
    ∃ vulns hs nrs,
      docVulnsE doc = .ok vulns ∧
      docHashes relId doc = .ok hs ∧
      vulnHashesE relId vulns = .ok hs ∧
      newRowsE st.rows relId scanId now vulns = .ok nrs ∧
      st'.rows = (applyUpdates (st.rows ++ nrs) (updsOf st.rows scanId now hs)).map
        (autoCloseRow (rowHashes st.rows) (foldIns [] hs) now) ∧
      ret = (foldIns [] hs).length ∧ fc = ret := by
  rw [trivyParseE, exceptBind_ok_iff] at hok
  obtain ⟨resultsJ, hr1, hok⟩ := hok
  rw [exceptBind_ok_iff] at hok
  obtain ⟨results, hr2, hok⟩ := hok
  rw [exceptBind_ok_iff] at hok
  obtain ⟨vulns, hr3, hok⟩ := hok
  rw [exceptBind_ok_iff] at hok
  obtain ⟨acc, hrun, hout⟩ := hok
  obtain ⟨hs, nrs, hvh, hnr, hseen, hcr, hup⟩ := runVulns_char _ _ _ _ _ _ _ hrun
  have hdv : docVulnsE doc = .ok vulns := by
    rw [docVulnsE, exceptBind_ok_iff]
    exact ⟨resultsJ, hr1, by rw [exceptBind_ok_iff]; exact ⟨results, hr2, hr3⟩⟩
  have hdh : docHashes relId doc = .ok hs := by
    rw [docHashes, exceptBind_ok_iff]
    exact ⟨vulns, hdv, hvh⟩
  have hinj : reconcileTail st acc now = (ret, fc, st') := by
    injection hout with hinj
  have hretv : ret = acc.seen.length := (congrArg Prod.fst hinj).symm
  have hfcv : fc = ret := by
    have hfc2 : fc = acc.seen.length := (congrArg (fun p => p.2.1) hinj).symm
    rw [hfc2, hretv]
  have hstv : st'.rows = (applyUpdates (st.rows ++ acc.toCreate) acc.toUpdate).map
      (autoCloseRow (rowHashes st.rows) acc.seen now) := by
    have h3 : st' = (⟨(applyUpdates (st.rows ++ acc.toCreate) acc.toUpdate).map
        (autoCloseRow (rowHashes st.rows) acc.seen now)⟩ : ScopeState) :=
      (congrArg (fun p => p.2.2) hinj).symm
    rw [h3]
  refine ⟨vulns, hs, nrs, hdv, hdh, hvh, hnr, ?_, ?_, hfcv⟩
  · rw [hstv, hseen, hcr, hup]
    simp
  · rw [hretv, hseen]

lemma lookupLast_lt_length {rows : List FindingRow} {h : String} {i : Nat} {x : FindingRow}
    (hll : lookupLast rows h = some (i, x)) : i < rows.length := by
  have hget := (lookupLast_spec hll).1
  by_contra hge
  rw [List.get?_eq_none.mpr (Nat.le_of_not_lt hge)] at hget
  cases hget

/-- The reconciled store of one parse run, as a function of the original
rows, the candidate hash sequence and the created rows. -/
def reconOut (rows : List FindingRow) (scanId now : Nat) (hs : List String)
    (nrs : List FindingRow) : List FindingRow :=
  (applyUpdates (rows ++ nrs) (updsOf rows scanId now hs)).map
    (autoCloseRow (rowHashes rows) (foldIns [] hs) now)

lemma length_reconOut (rows : List FindingRow) (scanId now : Nat) (hs : List String)
    (nrs : List FindingRow) :
    (reconOut rows scanId now hs nrs).length = rows.length + nrs.length := by
  rw [reconOut, List.length_map, length_applyUpdates, List.length_append]

/-- A stored row whose hash is absent from the candidate set is auto-closed
(unless already `FIXED`, in which case it is untouched). -/
lemma reconOut_missing {rows : List FindingRow} {scanId now : Nat} {hs : List String}
    {nrs : List FindingRow} {j : Nat} {r : FindingRow}
    (hget : rows.get? j = some r) (habsent : r.hash_id ∉ hs) :
    (reconOut rows scanId now hs nrs).get? j =
      some (if r.status = FStatus.FIXED then r
            else { r with status := FStatus.FIXED, last_seen := now }) := by
  have hjlen : j < rows.length := by
    by_contra hge
    rw [List.get?_eq_none.mpr (Nat.le_of_not_lt hge)] at hget
    cases hget
  have happ : (rows ++ nrs).get? j = some r := by
    rw [List.get?_append hjlen]; exact hget
  have huntargeted : (applyUpdates (rows ++ nrs) (updsOf rows scanId now hs)).get? j =
      some r := by
    rw [applyUpdates_untargeted, happ]
    intro h hh x hll
    obtain ⟨hgx, hhx⟩ := lookupLast_spec hll
    rw [hget] at hgx
    cases hgx
    rw [hhx] at habsent
    exact habsent hh
  rw [reconOut, List.get?_map, huntargeted]
  have hmemrow : r.hash_id ∈ rowHashes rows := by
    simp only [rowHashes, List.mem_map]
    exact ⟨r, List.get?_mem hget, rfl⟩
  have hnotseen : r.hash_id ∉ foldIns [] hs := by
    rw [mem_foldIns]
    rintro (hc | hc)
    · cases hc
    · exact habsent hc
  by_cases hfix : r.status = FStatus.FIXED
  · rw [if_pos hfix]
    simp only [Option.map_some']
    congr 1
    rw [autoCloseRow, if_neg]
    rintro ⟨_, _, hne⟩
    exact hne hfix
  · rw [if_neg hfix]
    simp only [Option.map_some']
    congr 1
    rw [autoCloseRow, if_pos ⟨hmemrow, hnotseen, hfix⟩]

/-- The last stored row of a re-observed hash is mutated by `updRow`. -/
lemma reconOut_reobserved {rows : List FindingRow} {scanId now : Nat} {hs : List String}
    {nrs : List FindingRow} {j : Nat} {r : FindingRow}
    (hget : rows.get? j = some r) (hmem : r.hash_id ∈ hs)
    (hlast : lookupLast rows r.hash_id = some (j, r)) :
    (reconOut rows scanId now hs nrs).get? j = some (updRow scanId now r) := by
  have hjlen : j < rows.length := by
    by_contra hge
    rw [List.get?_eq_none.mpr (Nat.le_of_not_lt hge)] at hget
    cases hget
  have happ : (rows ++ nrs).get? j = some r := by
    rw [List.get?_append hjlen]; exact hget
  have htargeted := @applyUpdates_targeted rows scanId now j r
    hget hlast hs (rows ++ nrs) happ hmem
  rw [reconOut, List.get?_map, htargeted]
  simp only [Option.map_some']
  congr 1
  rw [autoCloseRow, if_neg]
  rintro ⟨_, hnotseen, _⟩
  apply hnotseen
  rw [mem_foldIns]
  exact Or.inr (by rw [updRow]; simpa using hmem)

/-- A stored row of a re-observed hash that is not the hash's last stored
row is untouched by the run. -/
lemma reconOut_shadowed {rows : List FindingRow} {scanId now : Nat} {hs : List String}
    {nrs : List FindingRow} {j : Nat} {r : FindingRow}
    (hget : rows.get? j = some r) (hmem : r.hash_id ∈ hs)
    (hnotlast : ∀ x, lookupLast rows r.hash_id ≠ some (j, x)) :
    (reconOut rows scanId now hs nrs).get? j = some r := by
  have hjlen : j < rows.length := by
    by_contra hge
    rw [List.get?_eq_none.mpr (Nat.le_of_not_lt hge)] at hget
    cases hget
  have happ : (rows ++ nrs).get? j = some r := by
    rw [List.get?_append hjlen]; exact hget
  have huntargeted : (applyUpdates (rows ++ nrs) (updsOf rows scanId now hs)).get? j =
      some r := by
    rw [applyUpdates_untargeted, happ]
    intro h hh x hll
    obtain ⟨hgx, hhx⟩ := lookupLast_spec hll
    rw [hget] at hgx
    cases hgx
    exact hnotlast r (by rw [hhx]; exact hll)
  rw [reconOut, List.get?_map, huntargeted]
  simp only [Option.map_some']
  congr 1
  rw [autoCloseRow, if_neg]
  rintro ⟨_, hnotseen, _⟩
  apply hnotseen
  rw [mem_foldIns]
  exact Or.inr hmem

/-- The created rows sit untouched after the original rows. -/
lemma reconOut_created {rows : List FindingRow} {scanId now : Nat} {hs : List String}
    {nrs : List FindingRow} {j : Nat} {r : FindingRow}
    (hget : nrs.get? j = some r) (hmem : r.hash_id ∈ hs) :
    (reconOut rows scanId now hs nrs).get? (rows.length + j) = some r := by
  have happ : (rows ++ nrs).get? (rows.length + j) = some r := by
    rw [List.get?_append_right (Nat.le_add_right _ _)]
    have : rows.length + j - rows.length = j := by omega
    rw [this]
    exact hget
  have huntargeted : (applyUpdates (rows ++ nrs)
      (updsOf rows scanId now hs)).get? (rows.length + j) = some r := by
    rw [applyUpdates_untargeted, happ]
    intro h hh x hll
    have := lookupLast_lt_length hll
    omega
  rw [reconOut, List.get?_map, huntargeted]
  simp only [Option.map_some']
  congr 1
  rw [autoCloseRow, if_neg]
  rintro ⟨_, hnotseen, _⟩
  apply hnotseen
  rw [mem_foldIns]
  exact Or.inr hmem

lemma flipStatus_ne_fixed (s : FStatus) : flipStatus s ≠ FStatus.FIXED := by
  rw [flipStatus]
  by_cases hx : s = FStatus.FIXED
  · rw [if_pos hx]; intro hc; cases hc
  · rw [if_neg hx]; exact hx

lemma updRow_hash (scanId now : Nat) (x : FindingRow) :
    (updRow scanId now x).hash_id = x.hash_id := rfl

lemma autoCloseRow_hash (a b : List String) (n : Nat) (r : FindingRow) :
    (autoCloseRow a b n r).hash_id = r.hash_id := by
  rw [autoCloseRow]
  split <;> rfl

lemma set_get?_same {α : Type} {l : List α} {i : Nat} {a : α} (h : l.get? i = some a) :
    l.set i a = l := by
  apply List.ext_get?
  intro n
  by_cases hni : n = i
  · subst hni
    have hlen : n < l.length := by
      by_contra hge
      rw [List.get?_eq_none.mpr (Nat.le_of_not_lt hge)] at h
      cases h
    rw [List.get?_set_eq_of_lt _ hlen, h]
  · exact List.get?_set_ne _ _ (fun hc => hni hc.symm)

/-- Bulk updates that do not change any row's hash leave the hash column
untouched. -/
lemma rowHashes_applyUpdates : ∀ (ups : List (Nat × FindingRow)) (l : List FindingRow),
    (∀ p ∈ ups, (rowHashes l).get? p.1 = some p.2.hash_id) →
    rowHashes (applyUpdates l ups) = rowHashes l := by
  intro ups
  induction ups with
  | nil => intro l _; rfl
  | cons p rest ih =>
      intro l hcond
      obtain ⟨i, r⟩ := p
      rw [applyUpdates]
      have hset : rowHashes (l.set i r) = rowHashes l := by
        rw [rowHashes, List.map_set, ← rowHashes]
        exact set_get?_same (hcond (i, r) (List.mem_cons_self _ _))
      rw [ih _ (fun q hq => by rw [hset]; exact hcond q (List.mem_cons_of_mem _ hq)), hset]

/-- The run keeps every stored hash in place and appends the created ones. -/
lemma reconOut_rowHashes (rows : List FindingRow) (scanId now : Nat) (hs : List String)
    (nrs : List FindingRow) :
    rowHashes (reconOut rows scanId now hs nrs) = rowHashes rows ++ rowHashes nrs := by
  rw [reconOut]
  have hmapac : rowHashes ((applyUpdates (rows ++ nrs) (updsOf rows scanId now hs)).map
      (autoCloseRow (rowHashes rows) (foldIns [] hs) now)) =
      rowHashes (applyUpdates (rows ++ nrs) (updsOf rows scanId now hs)) := by
    rw [rowHashes, rowHashes, List.map_map]
    apply List.map_congr_left
    intro r _
    exact autoCloseRow_hash _ _ _ _
  rw [hmapac, rowHashes_applyUpdates, rowHashes, List.map_append]
  · rfl
  intro p hp
  obtain ⟨h, _, x, hll, hpx⟩ := mem_updsOf hp
  have hlt := lookupLast_lt_length hll
  obtain ⟨hgx, hhx⟩ := lookupLast_spec hll
  rw [rowHashes, List.get?_map, List.get?_append hlt, hgx, hpx, updRow_hash]
  rfl

/-- C2: for every scope holding a stored finding with hash H whose status
is OPEN (likewise FALSE_POSITIVE or WONT_FIX), running reconciliation with
a candidate set that does not contain H sets that finding's status to
FIXED and bumps last_seen; a later reconciliation whose candidate set
contains H again flips the status from FIXED back to OPEN.  The second
part assumes the scope invariant that hash_id is unique within the scope. -/
theorem C2_autoclose_and_reopen :
    (∀ (relId : String) (scanId now : Nat) (doc : Json) (st : ScopeState)
       (ret fc : Nat) (st' : ScopeState) (hs : List String) (j : Nat) (r : FindingRow),
       trivyParseE relId scanId now doc st = .ok (ret, fc, st') →
       docHashes relId doc = .ok hs →
       st.rows.get? j = some r →
       r.hash_id ∉ hs →
       r.status ≠ FStatus.FIXED →
       st'.rows.get? j = some { r with status := FStatus.FIXED, last_seen := now }) ∧
    (∀ (relId : String) (scanId now : Nat) (doc : Json) (st : ScopeState)
       (ret fc : Nat) (st' : ScopeState) (hs : List String) (j : Nat) (r : FindingRow),
       (rowHashes st.rows).Nodup →
       trivyParseE relId scanId now doc st = .ok (ret, fc, st') →
       docHashes relId doc = .ok hs →
       st.rows.get? j = some r →
       r.hash_id ∈ hs →
       r.status = FStatus.FIXED →
       st'.rows.get? j = some (updRow scanId now r) ∧
       (updRow scanId now r).status = FStatus.OPEN) := by
  constructor
  · intro relId scanId now doc st ret fc st' hs j r hok hdh hget habsent hnfixed
    obtain ⟨vulns, hs₀, nrs, _, hdh₀, _, _, hrows, _, _⟩ := trivyParseE_char hok
    rw [hdh] at hdh₀
    cases hdh₀
    rw [hrows]
    rw [← reconOut]
    rw [reconOut_missing hget habsent, if_neg hnfixed]
  · intro relId scanId now doc st ret fc st' hs j r hnd hok hdh hget hmem hfixed
    obtain ⟨vulns, hs₀, nrs, _, hdh₀, _, _, hrows, _, _⟩ := trivyParseE_char hok
    rw [hdh] at hdh₀
    cases hdh₀
    constructor
    · rw [hrows, ← reconOut]
      exact reconOut_reobserved hget hmem (lookupLast_of_nodup hnd hget)
    · rw [updRow]
      simp only [hfixed]
      rfl

/-- A sample stored SCA row with a given hash, status and timestamps. -/
def sampleRow (h : String) (s : FStatus) (seen scanId : Nat) : FindingRow :=
  { hash_id := h, status := s, severity := "HIGH", ftype := FType.SCA,
    kev := false, last_seen := seen, scan := scanId }

/-- A trivy document with no results. -/
def emptyTrivyDoc : Json := Json.obj [("Results", Json.arr [])]

/-- A trivy document with a single CVE-1/p/1 vulnerability entry. -/
def oneVulnDoc : Json :=
  Json.obj [("Results", Json.arr [Json.obj [("Vulnerabilities", Json.arr
    [Json.obj [("VulnerabilityID", Json.str "CVE-1"), ("PkgName", Json.str "p"),
      ("InstalledVersion", Json.str "1")]])]])]

/-- A trivy document listing the very same CVE-1/p/1 entry twice. -/
def dupVulnDoc : Json :=
  Json.obj [("Results", Json.arr [Json.obj [("Vulnerabilities", Json.arr
    [Json.obj [("VulnerabilityID", Json.str "CVE-1"), ("PkgName", Json.str "p"),
      ("InstalledVersion", Json.str "1")],
     Json.obj [("VulnerabilityID", Json.str "CVE-1"), ("PkgName", Json.str "p"),
      ("InstalledVersion", Json.str "1")]])]])]

/-- Concrete instantiation of both directions of `C2_autoclose_and_reopen`:
an OPEN finding auto-closes when its hash is absent from the document, and
a FIXED finding reopens when its hash reappears. -/
theorem C2_autoclose_and_reopen_witness :
    (ScopeState.mk [sampleRow "H" FStatus.FIXED 5 0]).rows.get? 0 =
      some (sampleRow "H" FStatus.FIXED 5 0) ∧
    (ScopeState.mk [sampleRow "CVE-1-p-1-R" FStatus.OPEN 5 1]).rows.get? 0 =
      some (sampleRow "CVE-1-p-1-R" FStatus.OPEN 5 1) := by
  constructor
  · exact C2_autoclose_and_reopen.1 "R" 1 5 emptyTrivyDoc
      (ScopeState.mk [sampleRow "H" FStatus.OPEN 0 0]) 0 0
      (ScopeState.mk [sampleRow "H" FStatus.FIXED 5 0]) [] 0
      (sampleRow "H" FStatus.OPEN 0 0)
      rfl rfl rfl (by decide) (by decide)
  · exact (C2_autoclose_and_reopen.2 "R" 1 5 oneVulnDoc
      (ScopeState.mk [sampleRow "CVE-1-p-1-R" FStatus.FIXED 0 0]) 1 1
      (ScopeState.mk [sampleRow "CVE-1-p-1-R" FStatus.OPEN 5 1])
      ["CVE-1-p-1-R"] 0
      (sampleRow "CVE-1-p-1-R" FStatus.FIXED 0 0)
      (by decide) rfl rfl rfl (by decide) rfl).1

/-- C3 fails on the code: a raw document listing the same
(vulnerability id, package, version) entry twice against an empty scope
stores two rows with the same hash_id, while the union of stored and
candidate hashes has one element. -/
theorem C3_no_double_counting_counterexample :
    docHashes "R" dupVulnDoc = .ok ["CVE-1-p-1-R", "CVE-1-p-1-R"] ∧
    (trivyParse "R" 1 5 0 dupVulnDoc (ScopeState.mk [])).state.rows.length = 2 ∧
    (rowHashes (trivyParse "R" 1 5 0 dupVulnDoc (ScopeState.mk [])).state.rows).toFinset.card
      = 1 ∧
    ((trivyParse "R" 1 5 0 dupVulnDoc (ScopeState.mk [])).state.rows.get? 0).map
        FindingRow.hash_id =
      ((trivyParse "R" 1 5 0 dupVulnDoc (ScopeState.mk [])).state.rows.get? 1).map
        FindingRow.hash_id := by
  refine ⟨rfl, rfl, ?_, rfl⟩
  decide

/-- C3 amended: provided the document does not repeat an entry whose hash
is not already stored (and the scope satisfies its uniqueness invariant),
one reconciliation run leaves the scope with pairwise distinct hashes and
exactly one row per hash in the union of stored and candidate hashes.  A
repeated new entry instead creates one row per occurrence. -/
theorem C3_no_double_counting_amended :
    ∀ (relId : String) (scanId now : Nat) (doc : Json) (st : ScopeState)
      (ret fc : Nat) (st' : ScopeState) (hs : List String),
      trivyParseE relId scanId now doc st = .ok (ret, fc, st') →
      docHashes relId doc = .ok hs →
      (rowHashes st.rows).Nodup →
      (hs.filter (fun h => (lookupLast st.rows h).isNone)).Nodup →
      (rowHashes st'.rows).Nodup ∧
      st'.rows.length = (rowHashes st.rows ++ hs).toFinset.card := by
  intro relId scanId now doc st ret fc st' hs hok hdh hndold hndnew
  obtain ⟨vulns, hs₀, nrs, _, hdh₀, hvh, hnr, hrows, _, _⟩ := trivyParseE_char hok
  rw [hdh] at hdh₀
  cases hdh₀
  obtain ⟨hmap, _⟩ := newRows_hashes hvh hnr
  have hrows' : st'.rows = reconOut st.rows scanId now hs nrs := hrows
  have hhashes : rowHashes st'.rows = rowHashes st.rows ++ rowHashes nrs := by
    rw [hrows']
    exact reconOut_rowHashes _ _ _ _ _
  have hnrs_eq : rowHashes nrs = hs.filter (fun h => (lookupLast st.rows h).isNone) := hmap
  have hdisj : ∀ x ∈ rowHashes st.rows,
      x ∉ hs.filter (fun h => (lookupLast st.rows h).isNone) := by
    intro x hxold hxnew
    obtain ⟨_, hxn⟩ := List.mem_filter.mp hxnew
    have : lookupLast st.rows x = none := by
      cases hl : lookupLast st.rows x with
      | none => rfl
      | some p => rw [hl] at hxn; cases hxn
    exact (lookupLast_eq_none.mp this) hxold
  constructor
  · rw [hhashes, hnrs_eq]
    rw [List.nodup_append]
    exact ⟨hndold, hndnew, fun x hx1 hx2 => hdisj x hx1 hx2⟩
  · have hlen : st'.rows.length = st.rows.length + nrs.length := by
      rw [hrows']
      exact length_reconOut _ _ _ _ _
    have hnlen : nrs.length = (hs.filter (fun h => (lookupLast st.rows h).isNone)).length := by
      rw [← hnrs_eq, rowHashes, List.length_map]
    have hsetsplit : (rowHashes st.rows ++ hs).toFinset =
        (rowHashes st.rows).toFinset ∪
          (hs.filter (fun h => (lookupLast st.rows h).isNone)).toFinset := by
      ext x
      simp only [List.toFinset_append, Finset.mem_union, List.mem_toFinset, List.mem_filter]
      constructor
      · rintro (hx | hx)
        · exact Or.inl hx
        · by_cases hxo : x ∈ rowHashes st.rows
          · exact Or.inl hxo
          · refine Or.inr ⟨hx, ?_⟩
            rw [lookupLast_eq_none.mpr hxo]
            rfl
      · rintro (hx | ⟨hx, _⟩)
        · exact Or.inl hx
        · exact Or.inr hx
    have hcard : (rowHashes st.rows ++ hs).toFinset.card =
        st.rows.length +
          (hs.filter (fun h => (lookupLast st.rows h).isNone)).length := by
      rw [hsetsplit, Finset.card_union_of_disjoint]
      · rw [List.toFinset_card_of_nodup hndold, List.toFinset_card_of_nodup hndnew,
          rowHashes, List.length_map]
      · rw [Finset.disjoint_left]
        intro x hx1 hx2
        exact hdisj x (List.mem_toFinset.mp hx1) (List.mem_toFinset.mp hx2)
    rw [hlen, hcard, hnlen]

/-- Concrete instantiation of `C3_no_double_counting_amended`: a document
with one fresh entry against an empty scope yields one row and a
duplicate-free hash column. -/
theorem C3_no_double_counting_amended_witness :
    ∃ st' : ScopeState,
      trivyParseE "R" 1 5 oneVulnDoc (ScopeState.mk []) = .ok (1, 1, st') ∧
      (rowHashes st'.rows).Nodup ∧
      st'.rows.length = (rowHashes (ScopeState.mk []).rows ++ ["CVE-1-p-1-R"]).toFinset.card := by
  refine ⟨ScopeState.mk [mkTrivyRow 1 5 "CVE-1-p-1-R" "INFO"], rfl, ?_⟩
  exact C3_no_double_counting_amended "R" 1 5 oneVulnDoc (ScopeState.mk []) 1 1
    (ScopeState.mk [mkTrivyRow 1 5 "CVE-1-p-1-R" "INFO"]) ["CVE-1-p-1-R"]
    rfl rfl (by decide) (by decide)

/-- C8 fails on the code: re-ingesting the document of a finding that was
triaged WONT_FIX returns 1 (the distinct-candidate count), while the scope
holds zero OPEN findings after reconciliation. -/
theorem C8_return_value_counterexample :
    (trivyParse "R" 1 5 0 oneVulnDoc
      (ScopeState.mk [sampleRow "CVE-1-p-1-R" FStatus.WONT_FIX 0 0])).ret = 1 ∧
    (activeFindings (trivyParse "R" 1 5 0 oneVulnDoc
      (ScopeState.mk [sampleRow "CVE-1-p-1-R" FStatus.WONT_FIX 0 0])).state.rows).length
      = 0 ∧
    (1 : Nat) ≠ 0 := by
  refine ⟨rfl, rfl, by decide⟩

/-- C8 amended: a successful parse returns the number of distinct candidate
hash_ids of the document (not, in general, the post-reconciliation OPEN
count), and that same value is persisted onto the scan's findings_count. -/
theorem C8_return_value_amended :
    ∀ (relId : String) (scanId now : Nat) (doc : Json) (st : ScopeState)
      (ret fc : Nat) (st' : ScopeState) (hs : List String),
      trivyParseE relId scanId now doc st = .ok (ret, fc, st') →
      docHashes relId doc = .ok hs →
      ret = hs.toFinset.card ∧ fc = ret := by
  intro relId scanId now doc st ret fc st' hs hok hdh
  obtain ⟨vulns, hs₀, nrs, _, hdh₀, _, _, _, hret, hfc⟩ := trivyParseE_char hok
  rw [hdh] at hdh₀
  cases hdh₀
  exact ⟨by rw [hret, length_foldIns_nil], hfc⟩

/-- Concrete instantiation of `C8_return_value_amended` on the
duplicate-entry document: two candidate occurrences, one distinct hash. -/
theorem C8_return_value_amended_witness :
    (1 : Nat) = (["CVE-1-p-1-R", "CVE-1-p-1-R"] : List String).toFinset.card ∧
    (1 : Nat) = 1 := by
  exact C8_return_value_amended "R" 1 5 dupVulnDoc (ScopeState.mk []) 1 1
    (ScopeState.mk [mkTrivyRow 1 5 "CVE-1-p-1-R" "INFO",
      mkTrivyRow 1 5 "CVE-1-p-1-R" "INFO"])
    ["CVE-1-p-1-R", "CVE-1-p-1-R"] rfl rfl

lemma ok_bind {ε α β : Type} (a : α) (k : α → Except ε β) :
    (Except.ok a >>= k) = k a := rfl

lemma error_bind {ε α β : Type} (e : ε) (k : α → Except ε β) :
    ((Except.error e : Except ε α) >>= k) = Except.error e := rfl

lemma lookupLast_some_mem {rows : List FindingRow} {h : String} {i : Nat} {x : FindingRow}
    (hll : lookupLast rows h = some (i, x)) : h ∈ rowHashes rows := by
  by_contra hnot
  rw [lookupLast_eq_none.mpr hnot] at hll
  cases hll

/-- Whether the vulnerability loop can run a document to completion,
as a function of the stored hash set alone (the per-candidate shape checks
do not read the scan id, the timestamp, or any non-hash column). -/
def vulnsOkB (rowHs : List String) (relId : String) : List Json → Bool
  | [] => true
  | v :: vs =>
      (match candHashE relId v with
       | .error _ => false
       | .ok h => if h ∈ rowHs then true else exceptOk (payloadOf v)) &&
      vulnsOkB rowHs relId vs

lemma runVulns_exceptOk (rows : List FindingRow) (relId : String) (scanId now : Nat) :
    ∀ (vs : List Json) (acc : LoopAcc),
      exceptOk (runVulns rows relId scanId now acc vs) =
        vulnsOkB (rowHashes rows) relId vs := by
  intro vs
  induction vs with
  | nil => intro acc; rfl
  | cons v vs ih =>
      intro acc
      cases hch : candHashE relId v with
      | error e =>
          have hpv : processVuln rows relId scanId now acc v = .error e := by
            simp only [processVuln, hch, error_bind]
          rw [runVulns, hpv, error_bind]
          simp only [vulnsOkB, hch, exceptOk, Bool.false_and]
      | ok h =>
          cases hlk : lookupLast rows h with
          | some q =>
              obtain ⟨i, x⟩ := q
              have hpv : processVuln rows relId scanId now acc v =
                  .ok ⟨insertHash acc.seen h, acc.toCreate,
                       acc.toUpdate ++ [(i, updRow scanId now x)]⟩ := by
                simp only [processVuln, hch, ok_bind, hlk]
              rw [runVulns, hpv, ok_bind, ih]
              have hm := lookupLast_some_mem hlk
              simp [vulnsOkB, hch, hm]
          | none =>
              have hnmem : h ∉ rowHashes rows := lookupLast_eq_none.mp hlk
              cases hpl : payloadOf v with
              | error e =>
                  have hpv : processVuln rows relId scanId now acc v = .error e := by
                    simp only [processVuln, hch, ok_bind, hlk, hpl, error_bind]
                  rw [runVulns, hpv, error_bind]
                  simp [vulnsOkB, hch, hnmem, hpl, exceptOk]
              | ok sev =>
                  have hpv : processVuln rows relId scanId now acc v =
                      .ok ⟨insertHash acc.seen h,
                           acc.toCreate ++ [mkTrivyRow scanId now h sev],
                           acc.toUpdate⟩ := by
                    simp only [processVuln, hch, ok_bind, hlk, hpl]
                  rw [runVulns, hpv, ok_bind, ih]
                  simp [vulnsOkB, hch, hnmem, hpl, exceptOk]

/-- Whether a parse succeeds depends only on the document, the release id
and the stored hash column — not on the scan id or the timestamp. -/
lemma trivyParseE_exceptOk_congr (relId : String) (s1 n1 s2 n2 : Nat) (doc : Json)
    (st st2 : ScopeState) (hhs : rowHashes st.rows = rowHashes st2.rows) :
    exceptOk (trivyParseE relId s1 n1 doc st) =
      exceptOk (trivyParseE relId s2 n2 doc st2) := by
  rw [trivyParseE, trivyParseE]
  cases h1 : jGetD doc "Results" (Json.arr []) with
  | error e => rw [error_bind, error_bind]
  | ok resultsJ =>
      rw [ok_bind, ok_bind]
      cases h2 : jAsArr resultsJ with
      | error e => rw [error_bind, error_bind]
      | ok results =>
          rw [ok_bind, ok_bind]
          cases h3 : getVulnList results with
          | error e => rw [error_bind, error_bind]
          | ok vulns =>
              rw [ok_bind, ok_bind]
              have hok1 : ∀ (s n : Nat) (stx : ScopeState),
                  exceptOk ((runVulns stx.rows relId s n ⟨[], [], []⟩ vulns) >>=
                    fun acc => Except.ok (reconcileTail stx acc n)) =
                  exceptOk (runVulns stx.rows relId s n ⟨[], [], []⟩ vulns) := by
                intro s n stx
                cases hr : runVulns stx.rows relId s n ⟨[], [], []⟩ vulns with
                | error e => rw [error_bind]; rfl
                | ok acc => rw [ok_bind]; rfl
              rw [hok1, hok1, runVulns_exceptOk, runVulns_exceptOk, hhs]
/-- A row whose stored status is not FIXED and whose hash is among the
candidates keeps its status across a run: either it is the hash's last
stored row and the mutation is the identity on a non-FIXED status, or it
is shadowed and untouched. -/
lemma reconOut_status_stable {rows : List FindingRow} {scanId now : Nat} {hs : List String}
    {nrs : List FindingRow} {j : Nat} {ρ : FindingRow}
    (hρ : rows.get? j = some ρ) (hmem : ρ.hash_id ∈ hs) (hnf : ρ.status ≠ FStatus.FIXED) :
    ((reconOut rows scanId now hs nrs).get? j).map FindingRow.status = some ρ.status := by
  cases hll : lookupLast rows ρ.hash_id with
  | none =>
      exfalso
      apply lookupLast_eq_none.mp hll
      simp only [rowHashes, List.mem_map]
      exact ⟨ρ, List.get?_mem hρ, rfl⟩
  | some p =>
      obtain ⟨j2, y⟩ := p
      by_cases hj2 : j2 = j
      · subst hj2
        have hy : y = ρ := by
          have hgy := (lookupLast_spec hll).1
          rw [hρ] at hgy
          cases hgy
          rfl
        subst hy
        rw [reconOut_reobserved hρ hmem hll]
        have : (updRow scanId now y).status = y.status := by
          rw [updRow]
          simp only [flipStatus, if_neg hnf]
        rw [Option.map_some']
        rw [this]
      · rw [reconOut_shadowed hρ hmem
          (fun x hx => hj2 (by rw [hll] at hx; cases hx; rfl))]
        rfl

/-- C1: computing hash_id twice from identical inputs yields the same
digest, and running `TrivyScanner.parse` a second time on an unchanged
scan document for the same scope creates zero new Finding rows and changes
no Finding's status (for every document and every starting scope,
including failing parses). -/
theorem C1_fingerprint_deterministic_ingestion_idempotent :
    (∀ (ftype : FType) (vid pn pv fp : String) (ln : Int) (t sh rid : String),
        findingSaveHash ftype vid pn pv fp ln t sh rid =
          findingSaveHash ftype vid pn pv fp ln t sh rid) ∧
    (∀ (relId : String) (s1 n1 fc1 s2 n2 : Nat) (doc : Json) (st : ScopeState),
        (trivyParse relId s2 n2 (trivyParse relId s1 n1 fc1 doc st).findings_count doc
            (trivyParse relId s1 n1 fc1 doc st).state).state.rows.length =
          (trivyParse relId s1 n1 fc1 doc st).state.rows.length ∧
        (trivyParse relId s2 n2 (trivyParse relId s1 n1 fc1 doc st).findings_count doc
            (trivyParse relId s1 n1 fc1 doc st).state).state.rows.map FindingRow.status =
          (trivyParse relId s1 n1 fc1 doc st).state.rows.map FindingRow.status) := by
  refine ⟨fun _ _ _ _ _ _ _ _ _ => rfl, ?_⟩
  intro relId s1 n1 fc1 s2 n2 doc st
  cases hE1 : trivyParseE relId s1 n1 doc st with
  | error e =>
      have hw1 : trivyParse relId s1 n1 fc1 doc st = ⟨0, fc1, st⟩ := by
        rw [trivyParse, hE1]
      have hok2 : exceptOk (trivyParseE relId s2 n2 doc st) = false := by
        rw [← trivyParseE_exceptOk_congr relId s1 n1 s2 n2 doc st st rfl, hE1]
        rfl
      cases hE2 : trivyParseE relId s2 n2 doc st with
      | ok out =>
          rw [hE2] at hok2
          exact absurd hok2 (by simp [exceptOk])
      | error e2 =>
          rw [hw1]
          show (trivyParse relId s2 n2 fc1 doc st).state.rows.length = st.rows.length ∧
            (trivyParse relId s2 n2 fc1 doc st).state.rows.map FindingRow.status =
              st.rows.map FindingRow.status
          rw [trivyParse, hE2]
          exact ⟨rfl, rfl⟩
  | ok out =>
      obtain ⟨ret1, fcv, st1⟩ := out
      have hw1 : trivyParse relId s1 n1 fc1 doc st = ⟨ret1, fcv, st1⟩ := by
        rw [trivyParse, hE1]
      obtain ⟨vulns, hs, nrs, hdv, hdh, hvh, hnr, hrows1, hret1, hfcv⟩ := trivyParseE_char hE1
      obtain ⟨hmap, hflds⟩ := newRows_hashes hvh hnr
      have hrec1 : st1.rows = reconOut st.rows s1 n1 hs nrs := hrows1
      have hh1 : rowHashes st1.rows = rowHashes st.rows ++ rowHashes nrs := by
        rw [hrec1]
        exact reconOut_rowHashes _ _ _ _ _
      have hall : ∀ h ∈ hs, h ∈ rowHashes st1.rows := by
        intro h hh
        rw [hh1, List.mem_append]
        by_cases hmem0 : h ∈ rowHashes st.rows
        · exact Or.inl hmem0
        · refine Or.inr ?_
          show h ∈ nrs.map FindingRow.hash_id
          rw [hmap]
          refine List.mem_filter.mpr ⟨hh, ?_⟩
          rw [lookupLast_eq_none.mpr hmem0]
          rfl
      have hdvK := hdv
      rw [docVulnsE, exceptBind_ok_iff] at hdv
      obtain ⟨resultsJ, hj1, hdv⟩ := hdv
      rw [exceptBind_ok_iff] at hdv
      obtain ⟨results, hj2, hj3⟩ := hdv
      obtain ⟨acc2, hrun2⟩ := @runVulns_ok_of_existing st1.rows relId s2 n2 vulns hs
        hvh hall ⟨[], [], []⟩
      have hE2 : trivyParseE relId s2 n2 doc st1 = .ok (reconcileTail st1 acc2 n2) := by
        rw [trivyParseE, hj1, ok_bind, hj2, ok_bind, hj3, ok_bind, hrun2, ok_bind]
      cases hE2v : trivyParseE relId s2 n2 doc st1 with
      | error e2 => rw [hE2v] at hE2; cases hE2
      | ok out2 =>
          obtain ⟨ret2, fc2, st2⟩ := out2
          have hw2 : trivyParse relId s2 n2 fcv doc st1 = ⟨ret2, fc2, st2⟩ := by
            rw [trivyParse, hE2v]
          obtain ⟨vulns2, hs2, nrs2, hdv2, hdh2, hvh2, hnr2, hrows2, _, _⟩ :=
            trivyParseE_char hE2v
          rw [hdvK] at hdv2
          cases hdv2
          rw [hdh] at hdh2
          cases hdh2
          have hnil : newRowsE st1.rows relId s2 n2 vulns = .ok [] :=
            newRowsE_all_existing hvh2 hall
          rw [hnil] at hnr2
          cases hnr2
          have hrec2 : st2.rows = reconOut st1.rows s2 n2 hs [] := hrows2
          have hlen21 : st2.rows.length = st1.rows.length := by
            rw [hrec2, length_reconOut]
            rfl
          rw [hw1]
          show (trivyParse relId s2 n2 fcv doc st1).state.rows.length =
              st1.rows.length ∧
            (trivyParse relId s2 n2 fcv doc st1).state.rows.map FindingRow.status =
              st1.rows.map FindingRow.status
          rw [hw2]
          refine ⟨hlen21, ?_⟩
          apply List.ext_get?
          intro j
          rw [List.get?_map, List.get?_map]
          by_cases hjlen : j < st1.rows.length
          · obtain ⟨ρ, hρ⟩ : ∃ ρ, st1.rows.get? j = some ρ := by
              cases hq : st1.rows.get? j with
              | none =>
                  exact absurd (List.get?_eq_none.mp hq) (Nat.not_le_of_lt hjlen)
              | some ρ => exact ⟨ρ, rfl⟩
            rw [hρ]
            have hlen1 : st1.rows.length = st.rows.length + nrs.length := by
              rw [hrec1, length_reconOut]
            by_cases hj0 : j < st.rows.length
            · obtain ⟨r, hr⟩ : ∃ r, st.rows.get? j = some r := by
                cases hq : st.rows.get? j with
                | none =>
                    exact absurd (List.get?_eq_none.mp hq) (Nat.not_le_of_lt hj0)
                | some r => exact ⟨r, rfl⟩
              by_cases hmemr : r.hash_id ∈ hs
              · cases hlast : lookupLast st.rows r.hash_id with
                | none =>
                    exfalso
                    apply lookupLast_eq_none.mp hlast
                    simp only [rowHashes, List.mem_map]
                    exact ⟨r, List.get?_mem hr, rfl⟩
                | some p =>
                    obtain ⟨i, x⟩ := p
                    by_cases hij : i = j
                    · subst hij
                      have hx : x = r := by
                        have hgx := (lookupLast_spec hlast).1
                        rw [hr] at hgx
                        cases hgx
                        rfl
                      subst hx
                      have hρval : ρ = updRow s1 n1 x := by
                        have := @reconOut_reobserved st.rows s1 n1 hs nrs i x
                          hr hmemr hlast
                        rw [← hrec1, hρ] at this
                        cases this
                        rfl
                      have hρmem : ρ.hash_id ∈ hs := by
                        rw [hρval, updRow_hash]
                        exact hmemr
                      have hρnf : ρ.status ≠ FStatus.FIXED := by
                        rw [hρval]
                        exact flipStatus_ne_fixed _
                      rw [hrec2]
                      exact reconOut_status_stable hρ hρmem hρnf
                    · have hρval : ρ = r := by
                        have := @reconOut_shadowed st.rows s1 n1 hs nrs j r
                          hr hmemr
                          (fun y hy => hij (by rw [hlast] at hy; cases hy; rfl))
                        rw [← hrec1, hρ] at this
                        cases this
                        rfl
                      by_cases hrf : ρ.status = FStatus.FIXED
                      · have hnotlast2 : ∀ y, lookupLast st1.rows ρ.hash_id ≠ some (j, y) := by
                          intro y hy
                          have hilen := lookupLast_lt_length hlast
                          obtain ⟨hgx, hhx⟩ := lookupLast_spec hlast
                          have hhash_i : (rowHashes st1.rows).get? i =
                              some r.hash_id := by
                            rw [hh1, List.get?_append (by
                              rw [rowHashes, List.length_map]; exact hilen)]
                            rw [rowHashes, List.get?_map, hgx]
                            exact congrArg some hhx
                          obtain ⟨z, hz, hzh⟩ : ∃ z, st1.rows.get? i = some z ∧
                              z.hash_id = r.hash_id := by
                            rw [rowHashes, List.get?_map] at hhash_i
                            cases hq : st1.rows.get? i with
                            | none => rw [hq] at hhash_i; cases hhash_i
                            | some z =>
                                rw [hq] at hhash_i
                                exact ⟨z, rfl, Option.some.inj hhash_i⟩
                          have hile : i ≤ j := by
                            apply lookupLast_is_last hy i z hz
                            rw [hzh, hρval]
                          have hjle : j ≤ i := by
                            apply lookupLast_is_last hlast j r hr rfl
                          omega
                        have hst2j : st2.rows.get? j = some ρ := by
                          rw [hrec2]
                          exact reconOut_shadowed hρ (by rw [hρval]; exact hmemr)
                            hnotlast2
                        rw [hst2j]
                      · rw [hrec2]
                        exact reconOut_status_stable hρ (by rw [hρval]; exact hmemr) hrf
              · have hρval : ρ = if r.status = FStatus.FIXED then r
                    else { r with status := FStatus.FIXED, last_seen := n1 } := by
                  have := @reconOut_missing st.rows s1 n1 hs nrs j r
                    hr hmemr
                  rw [← hrec1, hρ] at this
                  cases this
                  rfl
                have hρfix : ρ.status = FStatus.FIXED := by
                  rw [hρval]
                  by_cases hrf : r.status = FStatus.FIXED
                  · rw [if_pos hrf]; exact hrf
                  · rw [if_neg hrf]
                have hρhash : ρ.hash_id = r.hash_id := by
                  rw [hρval]
                  by_cases hrf : r.status = FStatus.FIXED
                  · rw [if_pos hrf]
                  · rw [if_neg hrf]
                have hst2j : st2.rows.get? j =
                    some (if ρ.status = FStatus.FIXED then ρ
                      else { ρ with status := FStatus.FIXED, last_seen := n2 }) := by
                  rw [hrec2]
                  exact reconOut_missing hρ (by rw [hρhash]; exact hmemr)
                rw [hst2j, if_pos hρfix]
            · have hk : j - st.rows.length < nrs.length := by omega
              obtain ⟨ν, hν⟩ : ∃ ν, nrs.get? (j - st.rows.length) = some ν := by
                cases hq : nrs.get? (j - st.rows.length) with
                | none =>
                    exact absurd (List.get?_eq_none.mp hq) (Nat.not_le_of_lt hk)
                | some ν => exact ⟨ν, rfl⟩
              have hνmem : ν.hash_id ∈ hs := by
                have hνin : ν.hash_id ∈ nrs.map FindingRow.hash_id :=
                  List.mem_map.mpr ⟨ν, List.get?_mem hν, rfl⟩
                rw [hmap] at hνin
                exact (List.mem_filter.mp hνin).1
              have hρν : ρ = ν := by
                have := @reconOut_created st.rows s1 n1 hs nrs (j - st.rows.length) ν
                  hν hνmem
                have hidx : st.rows.length + (j - st.rows.length) = j := by omega
                rw [hidx, ← hrec1, hρ] at this
                cases this
                rfl
              have hνopen : ν.status = FStatus.OPEN := (hflds ν (List.get?_mem hν)).1
              rw [hrec2]
              apply reconOut_status_stable hρ
              · rw [hρν]; exact hνmem
              · rw [hρν, hνopen]
                intro hc
                cases hc
          · have h1none : st1.rows.get? j = none :=
              List.get?_eq_none.mpr (Nat.le_of_not_lt hjlen)
            have h2none : st2.rows.get? j = none :=
              List.get?_eq_none.mpr (by rw [hlen21]; exact Nat.le_of_not_lt hjlen)
            rw [h1none, h2none]

/-- An OPEN CRITICAL non-KEV SCA finding. -/
def critRow : FindingRow :=
  { hash_id := "h", status := FStatus.OPEN, severity := "CRITICAL",
    ftype := FType.SCA, kev := false, last_seen := 0, scan := 0 }

/-- An OPEN INFO-severity KEV-flagged SCA finding. -/
def kevInfoRow : FindingRow :=
  { hash_id := "h", status := FStatus.OPEN, severity := "INFO",
    ftype := FType.SCA, kev := true, last_seen := 0, scan := 0 }

/-- C4 fails on the code: a release with zero linked artifacts and two
directly attached scans divides TRP by the scan count (2), not by
`max(artifact_count, 1) = 1` as the claim states. -/
theorem C4_risk_density_counterexample :
    trpOf [critRow] = 10 ∧
    riskDensityOf [critRow] 0 2 = 5 ∧
    riskDensityClaimed (trpOf [critRow]) 0 = 10 ∧
    riskDensityOf [critRow] 0 2 ≠ riskDensityClaimed (trpOf [critRow]) 0 := by
  have hk : kevCount [critRow] = 0 := rfl
  have hsec : secretCount [critRow] = 0 := rfl
  have hc : sevCount [critRow] "CRITICAL" = 1 := rfl
  have hh : sevCount [critRow] "HIGH" = 0 := rfl
  have hm : sevCount [critRow] "MEDIUM" = 0 := rfl
  have htrp : trpOf [critRow] = 10 := by
    rw [trpOf, hk, hsec, hc, hh, hm]
    norm_num
  refine ⟨htrp, ?_, ?_, ?_⟩
  · rw [riskDensityOf, artifactCountOf, htrp]
    norm_num
  · rw [riskDensityClaimed, htrp]
    norm_num
  · rw [riskDensityOf, artifactCountOf, riskDensityClaimed, htrp]
    norm_num

/-- C4 amended: TRP is the stated weighted sum over OPEN findings, and the
divisor of the risk density is the linked-artifact count when positive,
else the count of directly attached scans when positive, else 1 (the
spec's `max(artifact_count, 1)` only matches when at most one scan is
attached). -/
theorem C4_risk_density_amended :
    ∀ (fs : List FindingRow) (nA nS : Nat),
      trpOf fs = (kevCount fs : ℚ) * 50 + (secretCount fs : ℚ) * 50 +
        (sevCount fs "CRITICAL" : ℚ) * 10 + (sevCount fs "HIGH" : ℚ) * 2 +
        (sevCount fs "MEDIUM" : ℚ) * (1 / 2) ∧
      1 ≤ artifactCountOf nA nS ∧
      (0 < nA → riskDensityOf fs nA nS = trpOf fs / (nA : ℚ)) ∧
      (nA = 0 → 0 < nS → riskDensityOf fs nA nS = trpOf fs / (nS : ℚ)) ∧
      (nA = 0 → nS = 0 → riskDensityOf fs nA nS = trpOf fs) := by
  intro fs nA nS
  refine ⟨rfl, ?_, ?_, ?_, ?_⟩
  · rw [artifactCountOf]
    by_cases hA : nA = 0
    · rw [if_pos hA]
      by_cases hS : nS = 0
      · rw [if_pos hS]
      · rw [if_neg hS]; omega
    · rw [if_neg hA]; omega
  · intro hA
    rw [riskDensityOf, artifactCountOf, if_neg (Nat.pos_iff_ne_zero.mp hA), if_pos hA]
  · intro hA hS
    rw [riskDensityOf, artifactCountOf, if_pos hA,
      if_neg (Nat.pos_iff_ne_zero.mp hS), if_pos hS]
  · intro hA hS
    rw [riskDensityOf, artifactCountOf, if_pos hA, if_pos hS]
    norm_num

/-- Concrete instantiation of `C4_risk_density_amended`: one CRITICAL
finding, no artifacts, two scans — the density is TRP divided by 2. -/
theorem C4_risk_density_amended_witness :
    riskDensityOf [critRow] 0 2 = trpOf [critRow] / (2 : ℚ) :=
  (C4_risk_density_amended [critRow] 0 2).2.2.2.1 rfl (by decide)

lemma pyRound_nonneg {q : ℚ} (h : 0 ≤ q) : 0 ≤ pyRound q := by
  have hf : (0 : ℤ) ≤ ⌊q⌋ := Int.floor_nonneg.mpr h
  rw [pyRound]
  split_ifs <;> omega

lemma pyRound_le_100 {q : ℚ} (h : q ≤ 100) : pyRound q ≤ 100 := by
  have hf : ⌊q⌋ ≤ 100 := by
    have h1 := Int.floor_le_floor h
    have h2 : ⌊(100 : ℚ)⌋ = 100 := by norm_num
    omega
  rw [pyRound]
  split_ifs with h1 h2 h3
  · exact hf
  · by_contra hgt
    have hf100 : ⌊q⌋ = 100 := by omega
    have hle : q - (⌊q⌋ : ℚ) ≤ 0 := by
      rw [hf100]
      push_cast
      linarith
    linarith
  · exact hf
  · have heq : q - (⌊q⌋ : ℚ) = 1 / 2 := le_antisymm (not_lt.mp h2) (not_lt.mp h1)
    by_contra hgt
    have hf100 : ⌊q⌋ = 100 := by omega
    rw [hf100] at heq
    push_cast at heq
    linarith

lemma trpOf_nonneg (fs : List FindingRow) : 0 ≤ trpOf fs := by
  rw [trpOf]
  positivity

lemma riskDensityOf_nonneg (fs : List FindingRow) (nA nS : Nat) :
    0 ≤ riskDensityOf fs nA nS := by
  rw [riskDensityOf]
  split_ifs
  · exact div_nonneg (trpOf_nonneg fs) (by positivity)
  · exact trpOf_nonneg fs

lemma riskDensityOf_eq_zero {fs : List FindingRow} (nA nS : Nat)
    (h : trpOf fs = 0) : riskDensityOf fs nA nS = 0 := by
  rw [riskDensityOf, h]
  split_ifs <;> norm_num

/-- C5 fails on the code: 100 OPEN KEV-flagged findings on a single
artifact give TRP 5000, risk density 5000 and
`round(100 / (1 + 5000 / 25)) = round(100/201) = 0`, violating
`0 < risk_score`. -/
theorem C5_risk_score_counterexample :
    riskScoreOf (List.replicate 100 kevInfoRow) 1 0 = 0 ∧
    ¬(0 < riskScoreOf (List.replicate 100 kevInfoRow) 1 0) := by
  have hk : kevCount (List.replicate 100 kevInfoRow) = 100 := by decide
  have hsec : secretCount (List.replicate 100 kevInfoRow) = 0 := by decide
  have hc : sevCount (List.replicate 100 kevInfoRow) "CRITICAL" = 0 := by decide
  have hh : sevCount (List.replicate 100 kevInfoRow) "HIGH" = 0 := by decide
  have hm : sevCount (List.replicate 100 kevInfoRow) "MEDIUM" = 0 := by decide
  have htrp : trpOf (List.replicate 100 kevInfoRow) = 5000 := by
    rw [trpOf, hk, hsec, hc, hh, hm]
    norm_num
  have hd : riskDensityOf (List.replicate 100 kevInfoRow) 1 0 = 5000 := by
    rw [riskDensityOf, artifactCountOf, htrp]
    norm_num
  have hrs : riskScoreOf (List.replicate 100 kevInfoRow) 1 0 = 0 := by
    rw [riskScoreOf, hd, pyRound]
    norm_num
  exact ⟨hrs, by rw [hrs]; omega⟩

/-- C5 amended: the computed score satisfies `0 ≤ risk_score ≤ 100` (it can
reach 0 at high risk density, so the strict lower bound fails), equals 100
when TRP is 0, and the grade mapping is as stated. -/
theorem C5_risk_score_bounds_amended :
    ∀ (fs : List FindingRow) (nA nS : Nat),
      0 ≤ riskScoreOf fs nA nS ∧
      riskScoreOf fs nA nS ≤ 100 ∧
      (trpOf fs = 0 → riskScoreOf fs nA nS = 100) ∧
      (90 ≤ riskScoreOf fs nA nS → healthGradeOf (riskScoreOf fs nA nS) = "A") ∧
      (80 ≤ riskScoreOf fs nA nS → riskScoreOf fs nA nS < 90 →
        healthGradeOf (riskScoreOf fs nA nS) = "B") ∧
      (70 ≤ riskScoreOf fs nA nS → riskScoreOf fs nA nS < 80 →
        healthGradeOf (riskScoreOf fs nA nS) = "C") ∧
      (riskScoreOf fs nA nS < 70 → healthGradeOf (riskScoreOf fs nA nS) = "F") := by
  intro fs nA nS
  have hd : 0 ≤ riskDensityOf fs nA nS := riskDensityOf_nonneg fs nA nS
  have hden : (1 : ℚ) ≤ 1 + riskDensityOf fs nA nS / 25 := by
    have : 0 ≤ riskDensityOf fs nA nS / 25 := by positivity
    linarith
  have hx0 : 0 ≤ 100 / (1 + riskDensityOf fs nA nS / 25) := by positivity
  have hx100 : 100 / (1 + riskDensityOf fs nA nS / 25) ≤ 100 :=
    div_le_self (by norm_num) hden
  refine ⟨pyRound_nonneg hx0, pyRound_le_100 hx100, ?_, ?_, ?_, ?_, ?_⟩
  · intro htrp
    rw [riskScoreOf, riskDensityOf_eq_zero nA nS htrp, pyRound]
    norm_num
  · intro h90
    rw [healthGradeOf, if_pos h90]
  · intro h80 h90
    rw [healthGradeOf, if_neg (by omega), if_pos h80]
  · intro h70 h80
    rw [healthGradeOf, if_neg (by omega), if_neg (by omega), if_pos h70]
  · intro h70
    rw [healthGradeOf, if_neg (by omega), if_neg (by omega), if_neg (by omega)]

/-- Concrete instantiation of `C5_risk_score_bounds_amended`: an empty
finding set has TRP 0, score 100 and grade A. -/
theorem C5_risk_score_bounds_amended_witness :
    riskScoreOf [] 0 0 = 100 ∧ healthGradeOf (riskScoreOf [] 0 0) = "A" := by
  have htrp : trpOf [] = 0 := by
    rw [trpOf]
    norm_num [kevCount, secretCount, sevCount, activeFindings]
  have h100 := (C5_risk_score_bounds_amended [] 0 0).2.2.1 htrp
  exact ⟨h100, (C5_risk_score_bounds_amended [] 0 0).2.2.2.1 (by rw [h100]; omega)⟩

/-- C6: the compliance verdict is false exactly when there is an OPEN
KEV-flagged finding or an OPEN SECRET finding, true otherwise regardless of
other severities, and the blocking-issue count is the sum of the two. -/
theorem C6_compliance_gating :
    ∀ fs : List FindingRow,
      (complianceStatusOf fs = false ↔ 0 < kevCount fs ∨ 0 < secretCount fs) ∧
      (complianceStatusOf fs = true ↔ kevCount fs = 0 ∧ secretCount fs = 0) ∧
      complianceBlockingOf fs = kevCount fs + secretCount fs := by
  intro fs
  refine ⟨?_, ?_, rfl⟩
  · rw [complianceStatusOf]
    rcases Nat.eq_zero_or_pos (kevCount fs) with hk | hk <;>
      rcases Nat.eq_zero_or_pos (secretCount fs) with hsc | hsc <;>
        simp [hk, hsc] <;> omega
  · rw [complianceStatusOf]
    rcases Nat.eq_zero_or_pos (kevCount fs) with hk | hk <;>
      rcases Nat.eq_zero_or_pos (secretCount fs) with hsc | hsc <;>
        simp [hk, hsc] <;> omega

/-- C7: neither adapter lets a failure escape its boundary: whenever the
parse body fails (malformed or unexpectedly shaped input), `parse` returns
0 and leaves the store and the scan's findings_count untouched; a raw
document that is a JSON array at top level makes trivy fail this way, and
a non-list, non-object document makes trufflehog return 0 via its explicit
format check. -/
theorem C7_adapter_failure_isolation :
    (∀ (relId : String) (scanId now fc0 : Nat) (doc : Json) (st : ScopeState) (e : String),
        trivyParseE relId scanId now doc st = .error e →
        trivyParse relId scanId now fc0 doc st = ⟨0, fc0, st⟩) ∧
    (∀ (scopeId : String) (scanId now fc0 : Nat) (doc : Json) (st : ScopeState) (e : String),
        thogParseE scopeId scanId now fc0 doc st = .error e →
        thogParse scopeId scanId now fc0 doc st = ⟨0, fc0, st⟩) ∧
    (∀ (relId : String) (scanId now fc0 : Nat) (xs : List Json) (st : ScopeState),
        trivyParse relId scanId now fc0 (Json.arr xs) st = ⟨0, fc0, st⟩) ∧
    (∀ (scopeId : String) (scanId now fc0 : Nat) (n : Int) (st : ScopeState),
        thogParse scopeId scanId now fc0 (Json.num n) st = ⟨0, fc0, st⟩) := by
  refine ⟨?_, ?_, ?_, ?_⟩
  · intro relId scanId now fc0 doc st e he
    rw [trivyParse, he]
  · intro scopeId scanId now fc0 doc st e he
    rw [thogParse, he]
  · intro relId scanId now fc0 xs st
    have he : trivyParseE relId scanId now (Json.arr xs) st =
        .error "AttributeError: not a dict" := rfl
    rw [trivyParse, he]
  · intro scopeId scanId now fc0 n st
    rfl

/-- Concrete instantiation of `C7_adapter_failure_isolation`: a null
document fails trivy's `data.get` and a document whose `stringsFound` is
not a list fails trufflehog's inner loop; both parses return 0 with the
store untouched. -/
theorem C7_adapter_failure_isolation_witness :
    trivyParse "R" 1 5 7 Json.null (ScopeState.mk []) = ⟨0, 7, ScopeState.mk []⟩ ∧
    thogParse "S" 1 5 7 (Json.obj [("stringsFound", Json.num 1)]) (ScopeState.mk []) =
      ⟨0, 7, ScopeState.mk []⟩ := by
  constructor
  · exact C7_adapter_failure_isolation.1 "R" 1 5 7 Json.null (ScopeState.mk [])
      "AttributeError: not a dict" rfl
  · exact C7_adapter_failure_isolation.2.1 "S" 1 5 7
      (Json.obj [("stringsFound", Json.num 1)]) (ScopeState.mk [])
      "TypeError: not iterable" rfl

lemma bestScan_eq_none : ∀ {l : List ScanRec}, bestScan l = none ↔ l = [] := by
  intro l
  cases l with
  | nil => simp [bestScan]
  | cons r rs =>
      rw [bestScan]
      cases hb : bestScan rs with
      | none => simp
      | some b =>
          constructor
          · intro hc
            dsimp only at hc
            by_cases hlt : r.started_at < b.started_at
            · rw [if_pos hlt] at hc; cases hc
            · rw [if_neg hlt] at hc; cases hc
          · intro hc; cases hc

lemma bestScan_mem : ∀ {l : List ScanRec} {b : ScanRec}, bestScan l = some b → b ∈ l := by
  intro l
  induction l with
  | nil => intro b hb; cases hb
  | cons r rs ih =>
      intro b hb
      rw [bestScan] at hb
      cases hrec : bestScan rs with
      | none =>
          rw [hrec] at hb
          cases hb
          exact List.mem_cons_self _ _
      | some c =>
          rw [hrec] at hb
          dsimp only at hb
          by_cases hlt : r.started_at < c.started_at
          · rw [if_pos hlt] at hb
            cases hb
            exact List.mem_cons_of_mem _ (ih hrec)
          · rw [if_neg hlt] at hb
            cases hb
            exact List.mem_cons_self _ _

lemma bestScan_max : ∀ {l : List ScanRec} {b : ScanRec}, bestScan l = some b →
    ∀ x ∈ l, x.started_at ≤ b.started_at := by
  intro l
  induction l with
  | nil => intro b hb; cases hb
  | cons r rs ih =>
      intro b hb x hx
      rw [bestScan] at hb
      cases hrec : bestScan rs with
      | none =>
          rw [hrec] at hb
          cases hb
          rcases List.mem_cons.mp hx with rfl | hx'
          · exact Nat.le_refl _
          · rw [bestScan_eq_none.mp hrec] at hx'
            cases hx'
      | some c =>
          rw [hrec] at hb
          dsimp only at hb
          by_cases hlt : r.started_at < c.started_at
          · rw [if_pos hlt] at hb
            cases hb
            rcases List.mem_cons.mp hx with rfl | hx'
            · exact Nat.le_of_lt hlt
            · exact ih hrec x hx'
          · rw [if_neg hlt] at hb
            cases hb
            rcases List.mem_cons.mp hx with rfl | hx'
            · exact Nat.le_refl _
            · exact Nat.le_trans (ih hrec x hx') (Nat.le_of_not_lt hlt)

/-- C9: `get_or_create_scan_for_artifact` returns unchanged the most recent
existing scan of the same artifact and scanner started on the current
calendar day with status in {PENDING, PROCESSING, COMPLETED} — creating no
new scan row — and otherwise creates and returns a new PENDING scan started
now. -/
theorem C9_same_day_scan_dedup :
    ∀ (db : List ScanRec) (aId : Nat) (sname : String) (now nextId w : Nat),
      ((∃ s ∈ db, scanDedupPred aId sname (startOfDay now) s = true) →
        (getOrCreateScanForArtifact db aId sname now nextId w).isNew = false ∧
        (getOrCreateScanForArtifact db aId sname now nextId w).db = db ∧
        (getOrCreateScanForArtifact db aId sname now nextId w).scan ∈ db ∧
        scanDedupPred aId sname (startOfDay now)
          (getOrCreateScanForArtifact db aId sname now nextId w).scan = true ∧
        (∀ s ∈ db, scanDedupPred aId sname (startOfDay now) s = true →
          s.started_at ≤
            (getOrCreateScanForArtifact db aId sname now nextId w).scan.started_at)) ∧
      ((∀ s ∈ db, scanDedupPred aId sname (startOfDay now) s = false) →
        (getOrCreateScanForArtifact db aId sname now nextId w).isNew = true ∧
        (getOrCreateScanForArtifact db aId sname now nextId w).scan.sstatus =
          ScanStatus.PENDING ∧
        (getOrCreateScanForArtifact db aId sname now nextId w).scan.started_at = now ∧
        (getOrCreateScanForArtifact db aId sname now nextId w).db =
          db ++ [(getOrCreateScanForArtifact db aId sname now nextId w).scan]) := by
  intro db aId sname now nextId w
  constructor
  · rintro ⟨s, hsdb, hsp⟩
    rw [getOrCreateScanForArtifact]
    cases hbs : bestScan (db.filter (scanDedupPred aId sname (startOfDay now))) with
    | none =>
        exfalso
        have hempty := bestScan_eq_none.mp hbs
        have : s ∈ db.filter (scanDedupPred aId sname (startOfDay now)) :=
          List.mem_filter.mpr ⟨hsdb, hsp⟩
        rw [hempty] at this
        cases this
    | some b =>
        have hbmem := bestScan_mem hbs
        obtain ⟨hbdb, hbp⟩ := List.mem_filter.mp hbmem
        refine ⟨rfl, rfl, hbdb, hbp, ?_⟩
        intro x hxdb hxp
        exact bestScan_max hbs x (List.mem_filter.mpr ⟨hxdb, hxp⟩)
  · intro hnone
    rw [getOrCreateScanForArtifact]
    cases hbs : bestScan (db.filter (scanDedupPred aId sname (startOfDay now))) with
    | none => exact ⟨rfl, rfl, rfl, rfl⟩
    | some b =>
        exfalso
        have hbmem := bestScan_mem hbs
        obtain ⟨hbdb, hbp⟩ := List.mem_filter.mp hbmem
        rw [hnone b hbdb] at hbp
        cases hbp

/-- Concrete instantiation of `C9_same_day_scan_dedup`: a same-day repeated
upload reuses the existing COMPLETED scan and adds no row, and with no
matching scan a new PENDING scan is created. -/
theorem C9_same_day_scan_dedup_witness :
    ((getOrCreateScanForArtifact [⟨0, 7, "Trivy", 2000, ScanStatus.COMPLETED⟩]
        7 "Trivy" 2100 1 24).isNew = false ∧
      (getOrCreateScanForArtifact [⟨0, 7, "Trivy", 2000, ScanStatus.COMPLETED⟩]
        7 "Trivy" 2100 1 24).db = [⟨0, 7, "Trivy", 2000, ScanStatus.COMPLETED⟩]) ∧
    ((getOrCreateScanForArtifact [] 7 "Trivy" 2100 1 24).isNew = true ∧
      (getOrCreateScanForArtifact [] 7 "Trivy" 2100 1 24).scan.sstatus =
        ScanStatus.PENDING) := by
  constructor
  · have h := (C9_same_day_scan_dedup [⟨0, 7, "Trivy", 2000, ScanStatus.COMPLETED⟩]
      7 "Trivy" 2100 1 24).1
      ⟨⟨0, 7, "Trivy", 2000, ScanStatus.COMPLETED⟩, List.mem_cons_self _ _, by decide⟩
    exact ⟨h.1, h.2.1⟩
  · have h := (C9_same_day_scan_dedup [] 7 "Trivy" 2100 1 24).2
      (fun s hs => absurd hs (List.not_mem_nil s))
    exact ⟨h.1, h.2.1⟩

/-- The entries of the new SBOM document (sbom.py lines 15–16). -/
def docItemsE (doc : Json) : Except String (List Json) := do
  let itemsJ ← jGetD doc "components" (Json.arr [])
  jAsArr itemsJ

lemma digestSbomE_char {comps : List Component} {doc : Json} {out : List Component}
    (hok : digestSbomE comps doc = .ok out) :
    ∃ items acc, docItemsE doc = .ok items ∧
      runItems (buildCompMap 0 comps) ⟨[], [], []⟩ items = .ok acc ∧
      out = applyCompUpdates comps
          (acc.batchUpdate ++ removedUpdates (buildCompMap 0 comps) acc.newKeys) ++
        acc.batchCreate := by
  rw [digestSbomE, exceptBind_ok_iff] at hok
  obtain ⟨itemsJ, h1, hok⟩ := hok
  rw [exceptBind_ok_iff] at hok
  obtain ⟨items, h2, hok⟩ := hok
  rw [exceptBind_ok_iff] at hok
  obtain ⟨acc, hrun, hout⟩ := hok
  refine ⟨items, acc, ?_, hrun, ?_⟩
  · rw [docItemsE, exceptBind_ok_iff]
    exact ⟨itemsJ, h1, h2⟩
  · cases hout
    rfl

lemma mem_buildCompMap : ∀ {comps : List Component} {skip : Nat} {p : String × Nat},
    p ∈ buildCompMap skip comps →
    ∃ t c, comps.get? t = some c ∧ p.2 = skip + t ∧
      c.cstatus ≠ CStatus.REMOVED ∧ componentKey c = p.1 := by
  intro comps
  induction comps with
  | nil => intro skip p hp; cases hp
  | cons c cs ih =>
      intro skip p hp
      rw [buildCompMap] at hp
      by_cases hrem : c.cstatus = CStatus.REMOVED
      · rw [if_pos hrem] at hp
        obtain ⟨t, c', hget, hidx, hst, hkey⟩ := ih hp
        exact ⟨t + 1, c', by simpa using hget, by omega, hst, hkey⟩
      · rw [if_neg hrem] at hp
        rcases List.mem_cons.mp hp with rfl | hp'
        · exact ⟨0, c, rfl, by omega, hrem, rfl⟩
        · obtain ⟨t, c', hget, hidx, hst, hkey⟩ := ih hp'
          exact ⟨t + 1, c', by simpa using hget, by omega, hst, hkey⟩

lemma lastAssoc_eq_none : ∀ {m : List (String × Nat)} {k : String},
    (∀ p ∈ m, p.1 ≠ k) → lastAssoc m k = none := by
  intro m
  induction m with
  | nil => intro k _; rfl
  | cons q m ih =>
      intro k hall
      obtain ⟨k0, i0⟩ := q
      rw [lastAssoc, ih (fun p hp => hall p (List.mem_cons_of_mem _ hp))]
      rw [if_neg (hall (k0, i0) (List.mem_cons_self _ _))]

lemma lastAssoc_mem : ∀ {m : List (String × Nat)} {k : String} {i : Nat},
    lastAssoc m k = some i → (k, i) ∈ m := by
  intro m
  induction m with
  | nil => intro k i h; cases h
  | cons q m ih =>
      intro k i h
      obtain ⟨k0, i0⟩ := q
      rw [lastAssoc] at h
      cases hrec : lastAssoc m k with
      | some j =>
          rw [hrec] at h
          cases h
          exact List.mem_cons_of_mem _ (ih hrec)
      | none =>
          rw [hrec] at h
          by_cases hk : k0 = k
          · rw [if_pos hk] at h
            cases h
            rw [hk]
            exact List.mem_cons_self _ _
          · rw [if_neg hk] at h
            cases h

lemma runItems_create_mono {cmap : List (String × Nat)} :
    ∀ {items : List Json} {acc acc' : SbomAcc},
      runItems cmap acc items = .ok acc' →
      ∃ ext, acc'.batchCreate = acc.batchCreate ++ ext ∧
        ∀ c ∈ ext, c.cstatus = CStatus.NEW := by
  intro items
  induction items with
  | nil =>
      intro acc acc' h
      cases h
      exact ⟨[], by simp, fun c hc => absurd hc (List.not_mem_nil c)⟩
  | cons item items ih =>
      intro acc acc' h
      rw [runItems, exceptBind_ok_iff] at h
      obtain ⟨acc₁, hpi, hrest⟩ := h
      obtain ⟨ext, hext, hnew⟩ := ih hrest
      rw [processItem, exceptBind_ok_iff] at hpi
      obtain ⟨ctypeJ, _, hpi⟩ := hpi
      rw [exceptBind_ok_iff] at hpi
      obtain ⟨ctypeS, _, hpi⟩ := hpi
      rw [exceptBind_ok_iff] at hpi
      obtain ⟨nameJ, _, hpi⟩ := hpi
      rw [exceptBind_ok_iff] at hpi
      obtain ⟨versionJ, _, hpi⟩ := hpi
      rw [exceptBind_ok_iff] at hpi
      obtain ⟨purlJ, _, hpi⟩ := hpi
      dsimp only at hpi
      cases hla : lastAssoc cmap (if pyTruthy purlJ then pyStr purlJ
          else pyStr nameJ ++ "@" ++ pyStr versionJ) with
      | some i =>
          rw [hla] at hpi
          cases hpi
          exact ⟨ext, hext, hnew⟩
      | none =>
          rw [hla] at hpi
          cases hpi
          refine ⟨(⟨pyStr nameJ, pyStr versionJ, normCompType (pyUpper ctypeS),
            pyStr purlJ, licenseOf item, CStatus.NEW⟩ : Component) :: ext, ?_, ?_⟩
          · rw [hext]
            simp
          · intro c hc
            rcases List.mem_cons.mp hc with rfl | hc'
            · rfl
            · exact hnew c hc'

lemma runItems_upd_targets {cmap : List (String × Nat)} :
    ∀ {items : List Json} {acc acc' : SbomAcc},
      runItems cmap acc items = .ok acc' →
      ∀ p ∈ acc'.batchUpdate, p ∈ acc.batchUpdate ∨ ∃ k, lastAssoc cmap k = some p.1 := by
  intro items
  induction items with
  | nil =>
      intro acc acc' h p hp
      cases h
      exact Or.inl hp
  | cons item items ih =>
      intro acc acc' h p hp
      rw [runItems, exceptBind_ok_iff] at h
      obtain ⟨acc₁, hpi, hrest⟩ := h
      rw [processItem, exceptBind_ok_iff] at hpi
      obtain ⟨ctypeJ, _, hpi⟩ := hpi
      rw [exceptBind_ok_iff] at hpi
      obtain ⟨ctypeS, _, hpi⟩ := hpi
      rw [exceptBind_ok_iff] at hpi
      obtain ⟨nameJ, _, hpi⟩ := hpi
      rw [exceptBind_ok_iff] at hpi
      obtain ⟨versionJ, _, hpi⟩ := hpi
      rw [exceptBind_ok_iff] at hpi
      obtain ⟨purlJ, _, hpi⟩ := hpi
      dsimp only at hpi
      cases hla : lastAssoc cmap (if pyTruthy purlJ then pyStr purlJ
          else pyStr nameJ ++ "@" ++ pyStr versionJ) with
      | some i =>
          rw [hla] at hpi
          cases hpi
          rcases ih hrest p hp with hin | hk
          · rcases List.mem_append.mp hin with hin' | hin'
            · exact Or.inl hin'
            · rcases List.mem_singleton.mp hin' with rfl
              exact Or.inr ⟨_, hla⟩
          · exact Or.inr hk
      | none =>
          rw [hla] at hpi
          cases hpi
          exact ih hrest p hp

lemma runItems_creates_key {cmap : List (String × Nat)} :
    ∀ {items : List Json} {acc acc' : SbomAcc},
      runItems cmap acc items = .ok acc' →
      ∀ item ∈ items, ∀ (K s : String), itemKeyE item = .ok K →
        jGetD item "purl" (Json.str "") = .ok (Json.str s) →
        lastAssoc cmap K = none →
        ∃ c ∈ acc'.batchCreate, componentKey c = K ∧ c.cstatus = CStatus.NEW := by
  intro items
  induction items with
  | nil =>
      intro acc acc' _ item hitem
      exact absurd hitem (List.not_mem_nil item)
  | cons item0 items ih =>
      intro acc acc' h item hitem K s hkey hpurl hla
      rw [runItems, exceptBind_ok_iff] at h
      obtain ⟨acc₁, hpi, hrest⟩ := h
      rcases List.mem_cons.mp hitem with rfl | hitem'
      · rw [itemKeyE, exceptBind_ok_iff] at hkey
        obtain ⟨ctypeJ, hct, hkey⟩ := hkey
        rw [exceptBind_ok_iff] at hkey
        obtain ⟨ctypeS, hcs, hkey⟩ := hkey
        rw [exceptBind_ok_iff] at hkey
        obtain ⟨nameJ, hnm, hkey⟩ := hkey
        rw [exceptBind_ok_iff] at hkey
        obtain ⟨versionJ, hver, hkey⟩ := hkey
        rw [exceptBind_ok_iff] at hkey
        obtain ⟨purlJ, hpur, hkey⟩ := hkey
        cases hkey
        rw [hpurl] at hpur
        cases hpur
        rw [processItem, hct, ok_bind, hcs, ok_bind, hnm, ok_bind, hver, ok_bind,
          hpurl, ok_bind] at hpi
        dsimp only at hpi
        rw [hla] at hpi
        cases hpi
        obtain ⟨ext, hext, _⟩ := runItems_create_mono hrest
        refine ⟨⟨pyStr nameJ, pyStr versionJ, normCompType (pyUpper ctypeS),
          pyStr (Json.str s), licenseOf item, CStatus.NEW⟩, ?_, ?_, rfl⟩
        · rw [hext]
          dsimp only
          refine List.mem_append.mpr (Or.inl ?_)
          exact List.mem_append.mpr (Or.inr (List.mem_singleton.mpr rfl))
        · rw [componentKey]
          by_cases hse : s = ""
          · subst hse
            rw [if_neg (by simp [pyStr]), if_neg (by simp [pyTruthy])]
          · rw [if_pos (by simp [pyStr, hse]), if_pos (by simp [pyTruthy, hse])]
      · exact ih hrest item hitem' K s hkey hpurl hla

lemma length_applyCompUpdates : ∀ (ups : List (Nat × CStatus)) (comps : List Component),
    (applyCompUpdates comps ups).length = comps.length := by
  intro ups
  induction ups with
  | nil => intro comps; rfl
  | cons p rest ih =>
      intro comps
      obtain ⟨i, s⟩ := p
      rw [applyCompUpdates]
      cases hq : comps.get? i with
      | some c => rw [ih, List.length_set]
      | none => rw [ih]

lemma get?_applyCompUpdates_of_ne : ∀ (ups : List (Nat × CStatus)) (comps : List Component)
    (j : Nat), (∀ p ∈ ups, p.1 ≠ j) →
    (applyCompUpdates comps ups).get? j = comps.get? j := by
  intro ups
  induction ups with
  | nil => intro comps j _; rfl
  | cons p rest ih =>
      intro comps j hne
      obtain ⟨i, s⟩ := p
      rw [applyCompUpdates]
      cases hq : comps.get? i with
      | some c =>
          rw [ih _ _ (fun q hq' => hne q (List.mem_cons_of_mem _ hq'))]
          exact List.get?_set_ne _ _ (hne (i, s) (List.mem_cons_self _ _))
      | none =>
          exact ih _ _ (fun q hq' => hne q (List.mem_cons_of_mem _ hq'))

/-- C10: because SBOM digestion diffs the new document only against the
release's non-REMOVED components, a key that was previously marked REMOVED
and reappears in a later SBOM is inserted as a brand-new row with status
NEW while the old REMOVED row is retained, leaving more than one Component
row for the same key. -/
theorem C10_sbom_reappearance :
    ∀ (comps : List Component) (doc : Json) (out : List Component)
      (items : List Json) (item : Json) (K s : String) (j : Nat) (c : Component),
      digestSbomE comps doc = .ok out →
      docItemsE doc = .ok items →
      item ∈ items →
      itemKeyE item = .ok K →
      jGetD item "purl" (Json.str "") = .ok (Json.str s) →
      comps.get? j = some c →
      c.cstatus = CStatus.REMOVED →
      componentKey c = K →
      (∀ (i : Nat) (c' : Component), comps.get? i = some c' →
        c'.cstatus ≠ CStatus.REMOVED → componentKey c' ≠ K) →
      out.get? j = some c ∧
      ∃ c' ∈ out.drop comps.length, componentKey c' = K ∧ c'.cstatus = CStatus.NEW := by
  intro comps doc out items item K s j c hok hitems hitem hkey hpurl hget hrem hckey hactive
  obtain ⟨items₀, acc, hitems₀, hrun, hout⟩ := digestSbomE_char hok
  rw [hitems] at hitems₀
  cases hitems₀
  have hla : lastAssoc (buildCompMap 0 comps) K = none := by
    apply lastAssoc_eq_none
    intro p hp hpk
    obtain ⟨t, c₂, hg2, _, hst2, hkey2⟩ := mem_buildCompMap hp
    exact hactive t c₂ hg2 hst2 (by rw [hkey2, hpk])
  have hjlen : j < comps.length := by
    by_contra hge
    rw [List.get?_eq_none.mpr (Nat.le_of_not_lt hge)] at hget
    cases hget
  constructor
  · rw [hout]
    have htarget : ∀ p ∈ acc.batchUpdate ++
        removedUpdates (buildCompMap 0 comps) acc.newKeys, p.1 ≠ j := by
      intro p hp hpj
      have hidx : ∃ k, lastAssoc (buildCompMap 0 comps) k = some p.1 ∨
          (k, p.1) ∈ buildCompMap 0 comps := by
        rcases List.mem_append.mp hp with hp' | hp'
        · rcases runItems_upd_targets hrun p hp' with hin | ⟨k, hk⟩
          · cases hin
          · exact ⟨k, Or.inl hk⟩
        · rw [removedUpdates] at hp'
          obtain ⟨q, hq, hqp⟩ := List.mem_map.mp hp'
          have hqm := List.mem_filter.mp hq
          refine ⟨q.1, Or.inr ?_⟩
          have : p.1 = q.2 := by rw [← hqp]
          rw [this]
          exact hqm.1
      obtain ⟨k, hk⟩ := hidx
      have hmem : (k, p.1) ∈ buildCompMap 0 comps := by
        rcases hk with hk | hk
        · exact lastAssoc_mem hk
        · exact hk
      obtain ⟨t, c₂, hg2, hidx2, hst2, _⟩ := mem_buildCompMap hmem
      have ht : t = j := by omega
      rw [ht, hget] at hg2
      cases hg2
      exact hst2 hrem
    have hleft : (applyCompUpdates comps (acc.batchUpdate ++
        removedUpdates (buildCompMap 0 comps) acc.newKeys)).get? j = some c := by
      rw [get?_applyCompUpdates_of_ne _ _ _ htarget]
      exact hget
    rw [List.get?_append (by rw [length_applyCompUpdates]; exact hjlen)]
    exact hleft
  · obtain ⟨c', hc', hkeyc', hnewc'⟩ := runItems_creates_key hrun item hitem K s hkey hpurl hla
    refine ⟨c', ?_, hkeyc', hnewc'⟩
    rw [hout]
    have hlen : comps.length = (applyCompUpdates comps (acc.batchUpdate ++
        removedUpdates (buildCompMap 0 comps) acc.newKeys)).length :=
      (length_applyCompUpdates _ _).symm
    rw [hlen, List.drop_left]
    exact hc'

/-- The previously digested `requests` component, now REMOVED. -/
def sbomCompOld : Component :=
  ⟨"requests", "2.28.1", "LIBRARY", "", "MIT", CStatus.REMOVED⟩

/-- The row the digestion inserts when `requests` reappears. -/
def sbomCompNew : Component :=
  ⟨"requests", "2.28.1", "LIBRARY", "", "Unknown", CStatus.NEW⟩

/-- The reappearing SBOM entry. -/
def sbomItem : Json :=
  Json.obj [("name", Json.str "requests"), ("version", Json.str "2.28.1")]

/-- The new SBOM document containing only the reappearing entry. -/
def sbomDoc : Json := Json.obj [("components", Json.arr [sbomItem])]

/-- Concrete instantiation of `C10_sbom_reappearance`: digesting the new
document against the REMOVED `requests` row retains that row and appends a
NEW row with the same `name@version` key. -/
theorem C10_sbom_reappearance_witness :
    ([sbomCompOld, sbomCompNew] : List Component).get? 0 = some sbomCompOld ∧
    ∃ c' ∈ ([sbomCompOld, sbomCompNew] : List Component).drop 1,
      componentKey c' = "requests@2.28.1" ∧ c'.cstatus = CStatus.NEW := by
  exact C10_sbom_reappearance [sbomCompOld] sbomDoc [sbomCompOld, sbomCompNew]
    [sbomItem] sbomItem "requests@2.28.1" "" 0 sbomCompOld
    rfl rfl (List.mem_singleton.mpr rfl) rfl rfl rfl rfl rfl
    (by
      intro i c' hg ha
      cases i with
      | zero =>
          cases hg
          exact absurd rfl ha
      | succ k => simp at hg)
